import Mathlib

/-!
Verification of the focalboard `server/api/api.go` REST layer: the
boards-and-blocks composite mutation handlers, the orphan-filtering tree
reconstruction, and the modification-metadata stamping, shallowly embedded
as executable Lean definitions translated from the Go source.

Go machine integers (`int64` timestamps) are modelled as `Int`; Go strings
as `String`; Go slices as `List`; fallible collaborators (store, permission
service, model-package helpers that live outside this file's source) as an
explicit environment record.
-/

namespace Focalboard

/-- A block, from `model.Block` as used by `api.go`: identifier, owning
board, parent block identifier (empty means root), type tag, timestamps and
last-modifying actor.  The opaque `fields` payload is irrelevant to every
handler in the source file and is omitted. -/
structure Block where
  id : String
  boardID : String
  parentID : String
  type : String
  createAt : Int
  updateAt : Int
  modifiedBy : String
  deriving Repr, DecidableEq

/-- A board, from `model.Board` as used by `api.go`: identifier, owning
team and visibility type. -/
structure Board where
  id : String
  teamID : String
  type : String
  deriving Repr, DecidableEq

/-- `model.BoardTypeOpen` (the `open` visibility kind). -/
def BoardTypeOpen : String := "O"

/-- `model.BoardTypePrivate` (the `private` visibility kind). -/
def BoardTypePrivate : String := "P"

/-- `api.SingleUser`, the single-local-user sentinel identity
(`SingleUser = "single-user"` in `api.go`). -/
def SingleUser : String := "single-user"

/-! ## Tree Integrity Filter: `filterOrphanBlocks` (api.go:1081-1114)

The Go function builds `childrenOfBlockWithID`, a map from a non-empty
parent identifier to the list of its direct children in input order
(blocks with an empty `ParentID` go to the initial queue instead of the
map), then runs a queue-based breadth-first traversal seeded with the
roots, appending each dequeued block to the result and enqueueing its
children.  The map is only ever read by key (never iterated), so Go's map
iteration order cannot influence the result; the map is therefore embedded
as the lookup function it denotes. -/

/-- The children map `childrenOfBlockWithID` of `filterOrphanBlocks`, as a
lookup function: for a non-empty parent identifier `pid`, the blocks of
the input whose `ParentID` is `pid`, in input order; the key `""` is never
stored in the Go map (root blocks go to the queue instead), so looking it
up yields no children. -/
def childrenOf (blocks : List Block) (pid : String) : List Block :=
  if pid = "" then [] else blocks.filter (fun b => b.parentID = pid)

/-- The initial queue of `filterOrphanBlocks`: the root blocks (empty
`ParentID`), in input order. -/
def rootsOf (blocks : List Block) : List Block :=
  blocks.filter (fun b => b.parentID = "")

/-- The dequeue loop of `filterOrphanBlocks` (api.go:1103-1111): dequeue a
block, append it to the accumulator, enqueue its children.  The Go loop
has no fuel; it runs until the queue empties, which it does within
`blocks.length` iterations whenever block identifiers are pairwise
distinct (proved below as `bfsRun_eq_bfsLevels`).  On inputs with
duplicated identifiers the Go loop can re-enqueue children and may even
diverge, so the embedding carries an explicit fuel; all theorems below
either assume distinct identifiers (where the fuel provably suffices) or
evaluate on concrete inputs whose full Go trace fits in the fuel. -/
def bfsRun (c : String → List Block) : Nat → List Block → List Block → List Block
  | 0, _, acc => acc
  | _ + 1, [], acc => acc
  | fuel + 1, b :: rest, acc => bfsRun c fuel (rest ++ c b.id) (acc ++ [b])

/-- `filterOrphanBlocks` (api.go:1081-1114): breadth-first traversal from
the roots over the children map, dropping every block the traversal never
reaches.  Fuel `blocks.length * blocks.length + 1` dominates the at most
`blocks.length` dequeues performed when identifiers are distinct. -/
def filterOrphanBlocks (blocks : List Block) : List Block :=
  bfsRun (childrenOf blocks) (blocks.length * blocks.length + 1) (rootsOf blocks) []

/-! ### Level-by-level characterisation of the traversal -/

/-- Level-indexed frontier of the breadth-first traversal: level `0` is
the seed queue, level `k+1` holds the children of level `k`'s blocks in
queue order. -/
def levelIter (c : String → List Block) : Nat → List Block → List Block
  | 0, q => q
  | k + 1, q => (levelIter c k q).flatMap (fun b => c b.id)

/-- Concatenation of the first `m` frontiers: the reference breadth-first
order the queue loop produces. -/
def bfsLevels (c : String → List Block) : Nat → List Block → List Block
  | 0, _ => []
  | m + 1, q => q ++ bfsLevels c m (q.flatMap (fun b => c b.id))

/-! ## The HTTP handler layer

Handlers are embedded as pure functions from the decoded request body and
an explicit environment (permission service, store, model-package oracle)
to a result carrying the HTTP status, the response error message (the
`message` argument of `errorResponse`, empty for most error paths) and a
trace of the observable collaborator events in execution order.  Body
reading and JSON (un)marshalling, which sit before each handler's logic
and cannot fail on the values modelled here, are not modelled; audit
records are modelled by the `auditRecordMade` / `auditLogged` events. -/

/-- An error as produced by `errorResponse`: HTTP status code plus the
response message. -/
structure ApiError where
  code : Nat
  message : String
  deriving Repr, DecidableEq

/-- The permission flags of `model` consulted by the handlers in scope. -/
inductive Perm where
  | viewBoard
  | manageBoardCards
  | manageBoardProperties
  | manageBoardType
  | deleteBoard
  | createPublicChannel
  | createPrivateChannel
  deriving Repr, DecidableEq

/-- Observable collaborator events, in execution order. -/
inductive Event where
  | permCheckBoard (userID boardID : String) (perm : Perm) (granted : Bool)
  | permCheckTeam (userID teamID : String) (perm : Perm) (granted : Bool)
  | storeGetBoard (boardID : String)
  | storeGetBlock (blockID : String)
  | storeGetSubTree (boardID blockID : String) (levels : Int)
  | generateIDs
  | persistCreateBoardsAndBlocks (ok : Bool)
  | persistPatchBoardsAndBlocks (ok : Bool)
  | persistDeleteBoardsAndBlocks (ok : Bool)
  | persistInsertBlocks (blocks : List Block) (ok : Bool)
  | respond (status : Nat)
  | auditRecordMade
  | auditLogged (success : Bool)
  deriving Repr, DecidableEq

/-- Classifies the events a handler can emit before it creates its audit
record: permission checks, store lookups and identifier generation.
Persistence, response and audit events are post-gate. -/
def Event.preAudit : Event → Bool
  | .permCheckBoard _ _ _ _ => true
  | .permCheckTeam _ _ _ _ => true
  | .storeGetBoard _ => true
  | .storeGetBlock _ => true
  | .storeGetSubTree _ _ _ => true
  | .generateIDs => true
  | _ => false

/-- `model.BoardsAndBlocks`: the create-request bundle. -/
structure BoardsAndBlocks where
  boards : List Board
  blocks : List Block
  deriving Repr, DecidableEq

/-- `model.BoardPatch` as read by `handlePatchBoardsAndBlocks`: the
handler only inspects whether the `Type` pointer is non-nil; the other
patch fields are never read in `api.go` and are omitted. -/
structure BoardPatch where
  typePatch : Option String
  deriving Repr, DecidableEq

/-- `model.PatchBoardsAndBlocks` as read by `handlePatchBoardsAndBlocks`:
the handler reads `BoardIDs`, `BoardPatches` and `BlockIDs`; the
`BlockPatches` array is only forwarded to the store and is omitted. -/
structure PatchBoardsAndBlocks where
  boardIDs : List String
  boardPatches : List BoardPatch
  blockIDs : List String
  deriving Repr, DecidableEq

/-- `model.DeleteBoardsAndBlocks`: board and block identifier lists. -/
structure DeleteBoardsAndBlocks where
  boards : List String
  blocks : List String
  deriving Repr, DecidableEq

/-- Modelled from the spec: the `model`-package helpers called by the
handlers but defined outside this file's source —
`GenerateBoardsAndBlocksIDs` (the identifier resolver of §4.1, which can
fail on an unresolvable reference, surfaced by the handler as a bare 400)
and the `IsValid` structural validations of the three bundle shapes.
They are kept abstract as an oracle record; the handlers only depend on
whether they succeed. -/
structure Oracle where
  generateBab : BoardsAndBlocks → Option BoardsAndBlocks
  pbabValid : PatchBoardsAndBlocks → Bool
  boardPatchValid : BoardPatch → Bool
  dbabValid : DeleteBoardsAndBlocks → Bool

/-- The collaborators of the `API` receiver: permission service, store
(`a.app`), persistence outcomes, fresh-identifier source, the single
per-request clock reading (`utils.GetMillis`) and the model oracle.
`getBoardErr`/`getBlockErr` model the error return of the store lookups
(surfaced as 500), `getBoard`/`getBlock` their nil-able result. -/
structure Env where
  permBoard : String → String → Perm → Bool
  permTeam : String → String → Perm → Bool
  readTokenValid : Bool
  getBoardErr : String → Bool
  getBoard : String → Option Board
  getBlockErr : String → Bool
  getBlock : String → Option Block
  getSubTree : String → String → Int → Option (List Block)
  persistCreateOk : Bool
  persistPatchOk : Bool
  persistDeleteOk : Bool
  insertBlocksOk : Bool
  freshBlockID : Nat → String
  now : Int
  oracle : Oracle

/-- A handler run: HTTP status, response error message, event trace. -/
structure HandlerResult where
  status : Nat
  message : String
  events : List Event
  deriving Repr, DecidableEq

/-- Digit run of `strconv.ParseInt` in base 10: every remaining character
must be a decimal digit. -/
def parseDigits : List Char → Nat → Option Nat
  | [], acc => some acc
  | ch :: rest, acc =>
    if ch.isDigit then parseDigits rest (acc * 10 + (ch.toNat - 48)) else none

/-- `strconv.ParseInt(s, 10, 32)` as called by `handleGetSubTree`
(api.go:965): optional single sign, at least one decimal digit, 32-bit
range check; `none` models a non-nil error (the handler then defaults the
level count to 2). -/
def parseInt32 (s : String) : Option Int :=
  match s.data with
  | [] => none
  | ch :: rest =>
    let signed : Bool × List Char :=
      if ch = '-' then (true, rest)
      else if ch = '+' then (false, rest)
      else (false, ch :: rest)
    match signed.2 with
    | [] => none
    | ds =>
      match parseDigits ds 0 with
      | none => none
      | some n =>
        let v : Int := if signed.1 then -(n : Int) else (n : Int)
        if v < -2147483648 ∨ 2147483647 < v then none else some v

/-- `stampModificationMetadata` (api.go:311-326): overwrite each block's
last-modifying actor with the acting user — or with the empty string for
the single-user sentinel — and set every block's update timestamp to the
single clock reading `now` (`utils.GetMillis()` is read once, before the
loop, so the whole batch shares one timestamp).  The audit-metadata side
effect on `auditRec` is not modelled. -/
def stampModificationMetadata (userID : String) (now : Int)
    (blocks : List Block) : List Block :=
  let uid := if userID = SingleUser then "" else userID
  blocks.map (fun b => { b with modifiedBy := uid, updateAt := now })

/-- Modelled from the spec: `model.GenerateBlockIDs` (called by
`handleImport`, defined outside this file's source) gives every block a
fresh server identifier and rewrites any other block's parent reference
that pointed at a replaced identifier (§4.1); the owning-board field is
not rewritten — §4.1 rewrites only identifiers and parent links for a
blocks-only batch. -/
def generateBlockIDs (fresh : Nat → String) (blocks : List Block) : List Block :=
  let oldIDs := blocks.map Block.id
  let newFor := fun (oldID : String) =>
    match oldIDs.findIdx? (fun s => s = oldID) with
    | some i => fresh i
    | none => oldID
  ((List.range blocks.length).zip blocks).map
    (fun p => { p.2 with id := fresh p.1, parentID := newFor p.2.parentID })

/-- The per-block structural validation loop of
`handleCreateBoardsAndBlocks` (api.go:2590-2609): first offending block
wins; empty type, then `CreateAt < 1`, then `UpdateAt < 1`. -/
def createValidateBlocks : List Block → Option ApiError
  | [] => none
  | b :: rest =>
    if b.type.length < 1 then
      some ⟨400, "missing type for block id " ++ b.id⟩
    else if b.createAt < 1 then
      some ⟨400, "invalid createAt for block id " ++ b.id⟩
    else if b.updateAt < 1 then
      some ⟨400, "invalid UpdateAt for block id " ++ b.id⟩
    else createValidateBlocks rest

/-- Accumulator of the board scan of `handleCreateBoardsAndBlocks`. -/
structure CreateScan where
  teamID : String
  createsPublic : Bool
  createsPrivate : Bool
  deriving Repr, DecidableEq

/-- The board loop of `handleCreateBoardsAndBlocks` (api.go:2612-2639):
record the board-kind flags, adopt the first team identifier seen (and
`continue`, skipping the remaining checks for that board), reject a
differing team identifier, then reject an empty board identifier. -/
def createScanBoards : CreateScan → List Board → Except ApiError CreateScan
  | st, [] => Except.ok st
  | st, b :: rest =>
    let st1 : CreateScan :=
      { st with
        createsPublic := st.createsPublic || (b.type == BoardTypeOpen),
        createsPrivate := st.createsPrivate || (b.type == BoardTypePrivate) }
    if st1.teamID = "" then
      createScanBoards { st1 with teamID := b.teamID } rest
    else if st1.teamID ≠ b.teamID then
      Except.error ⟨400, "cannot create boards for multiple teams"⟩
    else if b.id = "" then
      Except.error ⟨400, "boards need an ID to be referenced from the blocks"⟩
    else
      createScanBoards st1 rest

/-- `handleCreateBoardsAndBlocks` (api.go:2549-2690): block validation,
board scan, identifier generation, aggregated team-permission gates,
audit record, persistence, response.  The generated bundle replaces the
request bundle in Go; its content is not needed by any property here and
is dropped. -/
def handleCreateBoardsAndBlocks (env : Env) (userID : String)
    (newBab : BoardsAndBlocks) : HandlerResult :=
  match createValidateBlocks newBab.blocks with
  | some e => ⟨e.code, e.message, [Event.respond e.code]⟩
  | none =>
    match createScanBoards ⟨"", false, false⟩ newBab.boards with
    | Except.error e => ⟨e.code, e.message, [Event.respond e.code]⟩
    | Except.ok scan =>
      match env.oracle.generateBab newBab with
      | none => ⟨400, "", [Event.generateIDs, Event.respond 400]⟩
      | some _ =>
        let pubOk := env.permTeam userID scan.teamID Perm.createPublicChannel
        let evPub := if scan.createsPublic then
            [Event.permCheckTeam userID scan.teamID Perm.createPublicChannel pubOk]
          else []
        if scan.createsPublic && !pubOk then
          ⟨403, "", [Event.generateIDs] ++ evPub ++ [Event.respond 403]⟩
        else
          let privOk := env.permTeam userID scan.teamID Perm.createPrivateChannel
          let evPriv := if scan.createsPrivate then
              [Event.permCheckTeam userID scan.teamID Perm.createPrivateChannel privOk]
            else []
          if scan.createsPrivate && !privOk then
            ⟨403, "", [Event.generateIDs] ++ evPub ++ evPriv ++ [Event.respond 403]⟩
          else
            let evs := [Event.generateIDs] ++ evPub ++ evPriv ++ [Event.auditRecordMade]
            if env.persistCreateOk then
              ⟨200, "", evs ++ [Event.persistCreateBoardsAndBlocks true,
                Event.respond 200, Event.auditLogged true]⟩
            else
              ⟨500, "", evs ++ [Event.persistCreateBoardsAndBlocks false,
                Event.respond 500, Event.auditLogged false]⟩

/-- The board loop of `handlePatchBoardsAndBlocks` (api.go:2740-2778):
per board, patch validity, the manage-properties permission, the
manage-type permission when the patch changes the type, the store
lookup (error → 500, nil → 400), then the team-consistency check. -/
def patchScanBoards (env : Env) (userID : String) :
    String → List (String × BoardPatch) → List Event × Except ApiError Unit
  | _, [] => ([], Except.ok ())
  | teamID, (boardID, patch) :: rest =>
    if !(env.oracle.boardPatchValid patch) then
      ([], Except.error ⟨400, ""⟩)
    else
      let g1 := env.permBoard userID boardID Perm.manageBoardProperties
      let ev1 := [Event.permCheckBoard userID boardID Perm.manageBoardProperties g1]
      if !g1 then (ev1, Except.error ⟨403, ""⟩)
      else
        let gT := env.permBoard userID boardID Perm.manageBoardType
        let evT := if patch.typePatch.isSome then
            [Event.permCheckBoard userID boardID Perm.manageBoardType gT]
          else []
        if patch.typePatch.isSome && !gT then
          (ev1 ++ evT, Except.error ⟨403, ""⟩)
        else
          let evG := [Event.storeGetBoard boardID]
          if env.getBoardErr boardID then
            (ev1 ++ evT ++ evG, Except.error ⟨500, ""⟩)
          else
            match env.getBoard boardID with
            | none => (ev1 ++ evT ++ evG, Except.error ⟨400, ""⟩)
            | some board =>
              let teamID1 := if teamID = "" then board.teamID else teamID
              if teamID1 ≠ board.teamID then
                (ev1 ++ evT ++ evG, Except.error ⟨400, ""⟩)
              else
                let next := patchScanBoards env userID teamID1 rest
                (ev1 ++ evT ++ evG ++ next.1, next.2)

/-- The block loop of `handlePatchBoardsAndBlocks` (api.go:2780-2795):
per block identifier, the store lookup (error → 500, nil → 400), then
membership of the block's owning board in the request's board set. -/
def patchScanBlocks (env : Env) (boardIDs : List String) :
    List String → List Event × Except ApiError Unit
  | [] => ([], Except.ok ())
  | blockID :: rest =>
    let evG := [Event.storeGetBlock blockID]
    if env.getBlockErr blockID then (evG, Except.error ⟨500, ""⟩)
    else
      match env.getBlock blockID with
      | none => (evG, Except.error ⟨400, ""⟩)
      | some block =>
        if boardIDs.contains block.boardID then
          let next := patchScanBlocks env boardIDs rest
          (evG ++ next.1, next.2)
        else (evG, Except.error ⟨400, ""⟩)

/-- `handlePatchBoardsAndBlocks` (api.go:2692-2823): bundle validity,
board loop, block loop, audit record, persistence, response.  The Go loop
indexes `BoardPatches[i]` by the position of `BoardIDs[i]`; the oracle's
`pbabValid` (the `IsValid` of the bundle) guarantees equal lengths, here
expressed by iterating over the zip. -/
def handlePatchBoardsAndBlocks (env : Env) (userID : String)
    (pbab : PatchBoardsAndBlocks) : HandlerResult :=
  if !(env.oracle.pbabValid pbab) then ⟨400, "", [Event.respond 400]⟩
  else
    let sb := patchScanBoards env userID "" (pbab.boardIDs.zip pbab.boardPatches)
    match sb.2 with
    | Except.error e => ⟨e.code, e.message, sb.1 ++ [Event.respond e.code]⟩
    | Except.ok _ =>
      let sk := patchScanBlocks env pbab.boardIDs pbab.blockIDs
      match sk.2 with
      | Except.error e => ⟨e.code, e.message, sb.1 ++ sk.1 ++ [Event.respond e.code]⟩
      | Except.ok _ =>
        let evs := sb.1 ++ sk.1 ++ [Event.auditRecordMade]
        if env.persistPatchOk then
          ⟨200, "", evs ++ [Event.persistPatchBoardsAndBlocks true,
            Event.respond 200, Event.auditLogged true]⟩
        else
          ⟨500, "", evs ++ [Event.persistPatchBoardsAndBlocks false,
            Event.respond 500, Event.auditLogged false]⟩

/-- The board loop of `handleDeleteBoardsAndBlocks` (api.go:2866-2891):
per board, the store lookup (error → 500, nil → 400), team consistency,
then the delete-board permission. -/
def deleteScanBoards (env : Env) (userID : String) :
    String → List String → List Event × Except ApiError Unit
  | _, [] => ([], Except.ok ())
  | teamID, boardID :: rest =>
    let evG := [Event.storeGetBoard boardID]
    if env.getBoardErr boardID then (evG, Except.error ⟨500, ""⟩)
    else
      match env.getBoard boardID with
      | none => (evG, Except.error ⟨400, ""⟩)
      | some board =>
        let teamID1 := if teamID = "" then board.teamID else teamID
        if teamID1 ≠ board.teamID then (evG, Except.error ⟨400, ""⟩)
        else
          let g := env.permBoard userID boardID Perm.deleteBoard
          let evP := [Event.permCheckBoard userID boardID Perm.deleteBoard g]
          if !g then (evG ++ evP, Except.error ⟨403, ""⟩)
          else
            let next := deleteScanBoards env userID teamID1 rest
            (evG ++ evP ++ next.1, next.2)

/-- `handleDeleteBoardsAndBlocks` (api.go:2825-2917): board loop (store,
team, permission per board), then the bundle's `IsValid`, audit record,
persistence, response. -/
def handleDeleteBoardsAndBlocks (env : Env) (userID : String)
    (dbab : DeleteBoardsAndBlocks) : HandlerResult :=
  let sb := deleteScanBoards env userID "" dbab.boards
  match sb.2 with
  | Except.error e => ⟨e.code, e.message, sb.1 ++ [Event.respond e.code]⟩
  | Except.ok _ =>
    if !(env.oracle.dbabValid dbab) then ⟨400, "", sb.1 ++ [Event.respond 400]⟩
    else
      let evs := sb.1 ++ [Event.auditRecordMade]
      if env.persistDeleteOk then
        ⟨200, "", evs ++ [Event.persistDeleteBoardsAndBlocks true,
          Event.respond 200, Event.auditLogged true]⟩
      else
        ⟨500, "", evs ++ [Event.persistDeleteBoardsAndBlocks false,
          Event.respond 500, Event.auditLogged false]⟩

/-- `handleGetSubTree` (api.go:914-1003): read-token/permission gate
(the permission service is consulted only when the read token is
invalid, mirroring Go's short-circuit `&&`), level parsing with default
2 on parse error, the `levels != 2 && levels != 3` rejection with message
"invalid levels", then store lookup and response. -/
def handleGetSubTree (env : Env) (userID boardID blockID lParam : String) :
    HandlerResult :=
  let permOk := env.permBoard userID boardID Perm.viewBoard
  let evPerm := if env.readTokenValid then []
    else [Event.permCheckBoard userID boardID Perm.viewBoard permOk]
  if !env.readTokenValid && !permOk then
    ⟨403, "", evPerm ++ [Event.respond 403]⟩
  else
    let levels : Int :=
      match parseInt32 lParam with
      | none => 2
      | some v => v
    if levels ≠ 2 ∧ levels ≠ 3 then
      ⟨400, "invalid levels", evPerm ++ [Event.respond 400]⟩
    else
      let evA := evPerm ++ [Event.auditRecordMade,
        Event.storeGetSubTree boardID blockID levels]
      match env.getSubTree boardID blockID levels with
      | none => ⟨500, "", evA ++ [Event.respond 500, Event.auditLogged false]⟩
      | some _ => ⟨200, "", evA ++ [Event.respond 200, Event.auditLogged true]⟩

/-- `handleImport` (api.go:1116-1193): manage-cards permission gate,
audit record, rebase of every submitted block onto the URL's board
(api.go:1177-1179), metadata stamping, identifier generation, insertion,
response. -/
def handleImport (env : Env) (userID boardID : String) (blocks : List Block) :
    HandlerResult :=
  let permOk := env.permBoard userID boardID Perm.manageBoardCards
  if !permOk then
    ⟨403, "", [Event.permCheckBoard userID boardID Perm.manageBoardCards false,
      Event.respond 403]⟩
  else
    let rebased := blocks.map (fun b => { b with boardID := boardID })
    let stamped := stampModificationMetadata userID env.now rebased
    let inserted := generateBlockIDs env.freshBlockID stamped
    let evs := [Event.permCheckBoard userID boardID Perm.manageBoardCards true,
      Event.auditRecordMade]
    if env.insertBlocksOk then
      ⟨200, "", evs ++ [Event.persistInsertBlocks inserted true,
        Event.respond 200, Event.auditLogged true]⟩
    else
      ⟨500, "", evs ++ [Event.persistInsertBlocks inserted false,
        Event.respond 500, Event.auditLogged false]⟩

/-! ### Concrete inputs for the evaluations below -/

/-- A permissive environment: all permissions granted, healthy store,
successful persistence. -/
def envAllOk : Env where
  permBoard := fun _ _ _ => true
  permTeam := fun _ _ _ => true
  readTokenValid := true
  getBoardErr := fun _ => false
  getBoard := fun _ => none
  getBlockErr := fun _ => false
  getBlock := fun _ => none
  getSubTree := fun _ _ _ => some []
  persistCreateOk := true
  persistPatchOk := true
  persistDeleteOk := true
  insertBlocksOk := true
  freshBlockID := fun n => "srv" ++ toString n
  now := 12345
  oracle := ⟨fun bab => some bab, fun _ => true, fun _ => true, fun _ => true⟩

/-- A root block with identifier `A`, duplicated in `dupInput`. -/
def dupBlockA : Block := ⟨"A", "board1", "", "text", 1, 1, ""⟩

/-- A child of `A`. -/
def dupChildB : Block := ⟨"B", "board1", "A", "text", 1, 1, ""⟩

/-- An input list carrying the same root block twice plus one child: the
Go loop terminates on it (dequeue trace `A, A, B, B`), well inside the
embedded fuel. -/
def dupInput : List Block := [dupBlockA, dupBlockA, dupChildB]

/-- The spec's worked example: root `A`, child `B` of `A`, and `C` whose
parent `Z` is absent. -/
def exRootA : Block := ⟨"A", "b", "", "card", 1, 1, ""⟩

/-- Child `B` of `A` in the spec's worked example. -/
def exChildB : Block := ⟨"B", "b", "A", "card", 1, 1, ""⟩

/-- Orphan `C` (parent `Z` absent) in the spec's worked example. -/
def exOrphanC : Block := ⟨"C", "b", "Z", "card", 1, 1, ""⟩

/-- The spec's worked example input. -/
def exInput : List Block := [exRootA, exChildB, exOrphanC]

/-- A create bundle whose first board carries an empty team identifier
and whose second carries team `T1`. -/
def c2Bab : BoardsAndBlocks := ⟨[⟨"b1", "", "O"⟩, ⟨"b2", "T1", "O"⟩], []⟩

/-- A create bundle with two boards on different (non-empty) teams. -/
def c2wBab : BoardsAndBlocks := ⟨[⟨"a", "T1", "O"⟩, ⟨"b", "T2", "O"⟩], []⟩

/-- A patch set targeting one board that the store does not know. -/
def c3Pbab : PatchBoardsAndBlocks := ⟨["missing"], [⟨none⟩], []⟩

/-- A create bundle carrying a block with an empty type tag. -/
def c4Bab : BoardsAndBlocks := ⟨[], [⟨"k1", "b", "", "", 1, 1, ""⟩]⟩

/-- A block living on a board that `c6Pbab` does not target. -/
def c6Block : Block := ⟨"blk1", "otherBoard", "", "card", 1, 1, ""⟩

/-- An environment that knows board `bX` and block `blk1`. -/
def envC6 : Env :=
  { envAllOk with
    getBlock := fun s => if s = "blk1" then some c6Block else none,
    getBoard := fun _ => some ⟨"bX", "T1", "O"⟩ }

/-- A patch set targeting board `bX` and block `blk1`, whose owning board
`otherBoard` is not among the targeted boards. -/
def c6Pbab : PatchBoardsAndBlocks := ⟨["bX"], [⟨none⟩], ["blk1"]⟩

theorem bfsRun_acc (c : String → List Block) :
    ∀ fuel q acc, bfsRun c fuel q acc = acc ++ bfsRun c fuel q [] := by
  intro fuel
  induction fuel with
  | zero => intro q acc; simp [bfsRun]
  | succ n ih =>
    intro q acc
    cases q with
    | nil => simp [bfsRun]
    | cons b rest =>
      rw [bfsRun, bfsRun, ih (rest ++ c b.id) (acc ++ [b]),
        ih (rest ++ c b.id) ([] ++ [b])]
      simp

/-- One breadth-first round: spending exactly `q.length` fuel on the block
of queue entries `q` outputs `q` and leaves the concatenated children of
`q` behind any entries `extra` that were already queued after `q`. -/
theorem bfsRun_round (c : String → List Block) :
    ∀ q extra f acc, bfsRun c (q.length + f) (q ++ extra) acc
      = bfsRun c f (extra ++ q.flatMap (fun b => c b.id)) (acc ++ q) := by
  intro q
  induction q with
  | nil => intro extra f acc; simp
  | cons b q' ih =>
    intro extra f acc
    have hlen : (b :: q').length + f = (q'.length + f) + 1 := by
      simp [List.length_cons]; ring
    rw [hlen]
    show bfsRun c ((q'.length + f) + 1) (b :: (q' ++ extra)) acc = _
    rw [bfsRun, List.append_assoc q' extra (c b.id), ih (extra ++ c b.id) f (acc ++ [b])]
    simp [List.flatMap_cons, List.append_assoc]

theorem bfsRun_nil (c : String → List Block) : ∀ f acc, bfsRun c f [] acc = acc := by
  intro f acc; cases f <;> rfl

theorem levelIter_shift (c : String → List Block) :
    ∀ k q, levelIter c (k + 1) q = levelIter c k (q.flatMap (fun b => c b.id)) := by
  intro k
  induction k with
  | zero => intro q; rfl
  | succ k ih =>
    intro q
    show (levelIter c (k + 1) q).flatMap (fun b : Block => c b.id) = _
    rw [ih q]; rfl

theorem bfsLevels_nil (c : String → List Block) : ∀ m, bfsLevels c m [] = [] := by
  intro m
  induction m with
  | zero => rfl
  | succ m ih => show [] ++ bfsLevels c m (([] : List Block).flatMap (fun b => c b.id)) = []; simpa using ih

/-- When the frontier dies out within `m` rounds and the fuel covers the
total number of dequeues, the queue-based loop computes exactly the
level-by-level concatenation. -/
theorem bfsRun_eq_bfsLevels (c : String → List Block) :
    ∀ m q f, levelIter c m q = [] → (bfsLevels c m q).length ≤ f →
      bfsRun c f q [] = bfsLevels c m q := by
  intro m
  induction m with
  | zero =>
    intro q f hq _
    have : q = [] := hq
    subst this
    simp [bfsRun_nil, bfsLevels]
  | succ m ih =>
    intro q f hq hf
    have hlen : q.length + (bfsLevels c m (q.flatMap (fun b => c b.id))).length ≤ f := by
      simpa [bfsLevels] using hf
    have hsplit : f = q.length + (f - q.length) := by omega
    rw [hsplit]
    have h1 : bfsRun c (q.length + (f - q.length)) (q ++ []) []
        = bfsRun c (f - q.length) ([] ++ q.flatMap (fun b => c b.id)) ([] ++ q) :=
      bfsRun_round c q [] (f - q.length) []
    simp only [List.append_nil, List.nil_append] at h1
    rw [h1, bfsRun_acc]
    have hq' : levelIter c m (q.flatMap (fun b => c b.id)) = [] := by
      rw [← levelIter_shift]; exact hq
    rw [ih (q.flatMap (fun b => c b.id)) (f - q.length) hq' (by omega)]
    rfl

theorem mem_childrenOf {blocks : List Block} {pid : String} {x : Block} :
    x ∈ childrenOf blocks pid ↔ pid ≠ "" ∧ x ∈ blocks ∧ x.parentID = pid := by
  unfold childrenOf
  split
  · simp_all
  · simp_all [List.mem_filter]

theorem mem_rootsOf {blocks : List Block} {x : Block} :
    x ∈ rootsOf blocks ↔ x ∈ blocks ∧ x.parentID = "" := by
  simp [rootsOf, List.mem_filter]

theorem levelIter_subset {blocks : List Block} :
    ∀ k, ∀ x ∈ levelIter (childrenOf blocks) k (rootsOf blocks), x ∈ blocks := by
  intro k
  induction k with
  | zero => intro x hx; exact (mem_rootsOf.mp hx).1
  | succ k ih =>
    intro x hx
    obtain ⟨p, _, hc⟩ := List.mem_flatMap.mp hx
    exact (mem_childrenOf.mp hc).2.1

theorem mem_levelIter_succ {blocks : List Block} {k : Nat} {x : Block} :
    x ∈ levelIter (childrenOf blocks) (k + 1) (rootsOf blocks) ↔
      ∃ p ∈ levelIter (childrenOf blocks) k (rootsOf blocks),
        p.id ≠ "" ∧ x ∈ blocks ∧ x.parentID = p.id := by
  show x ∈ (levelIter (childrenOf blocks) k (rootsOf blocks)).flatMap _ ↔ _
  rw [List.mem_flatMap]
  constructor
  · rintro ⟨p, hp, hc⟩
    exact ⟨p, hp, mem_childrenOf.mp hc⟩
  · rintro ⟨p, hp, h1, h2, h3⟩
    exact ⟨p, hp, mem_childrenOf.mpr ⟨h1, h2, h3⟩⟩

/-- Everything the queue loop ever outputs comes from the seed queue or
from the children map: no block is invented. -/
theorem bfsRun_mem (c : String → List Block) (S : List Block)
    (hc : ∀ pid, ∀ x ∈ c pid, x ∈ S) :
    ∀ f q acc, (∀ x ∈ q, x ∈ S) → (∀ x ∈ acc, x ∈ S) →
      ∀ x ∈ bfsRun c f q acc, x ∈ S := by
  intro f
  induction f with
  | zero => intro q acc _ hacc x hx; exact hacc x hx
  | succ f ih =>
    intro q acc hq hacc x hx
    cases q with
    | nil => exact hacc x hx
    | cons b rest =>
      refine ih (rest ++ c b.id) (acc ++ [b]) ?_ ?_ x hx
      · intro y hy
        rcases List.mem_append.mp hy with h | h
        · exact hq y (List.mem_cons_of_mem _ h)
        · exact hc b.id y h
      · intro y hy
        rcases List.mem_append.mp hy with h | h
        · exact hacc y h
        · rw [List.mem_singleton.mp h]; exact hq b (List.mem_cons_self _ _)

/-- `filterOrphanBlocks` outputs only blocks of its input. -/
theorem filterOrphanBlocks_subset {blocks : List Block} :
    ∀ x ∈ filterOrphanBlocks blocks, x ∈ blocks := by
  refine bfsRun_mem (childrenOf blocks) blocks ?_ _ _ [] ?_ ?_
  · intro pid x hx; exact (mem_childrenOf.mp hx).2.1
  · intro x hx; exact (mem_rootsOf.mp hx).1
  · intro x hx; cases hx

/-- Invariant of the queue loop: every block it outputs is a root or has
its parent present in the input. -/
theorem bfsRun_parent_present {blocks : List Block} :
    ∀ f q acc,
      (∀ x ∈ q, x ∈ blocks) →
      (∀ x ∈ q, x.parentID = "" ∨ ∃ p ∈ blocks, p.id = x.parentID) →
      (∀ x ∈ acc, x.parentID = "" ∨ ∃ p ∈ blocks, p.id = x.parentID) →
      ∀ x ∈ bfsRun (childrenOf blocks) f q acc,
        x.parentID = "" ∨ ∃ p ∈ blocks, p.id = x.parentID := by
  intro f
  induction f with
  | zero => intro q acc _ _ hacc x hx; exact hacc x hx
  | succ f ih =>
    intro q acc hqb hq hacc x hx
    cases q with
    | nil => exact hacc x hx
    | cons b rest =>
      refine ih (rest ++ childrenOf blocks b.id) (acc ++ [b]) ?_ ?_ ?_ x hx
      · intro y hy
        rcases List.mem_append.mp hy with h | h
        · exact hqb y (List.mem_cons_of_mem _ h)
        · exact (mem_childrenOf.mp h).2.1
      · intro y hy
        rcases List.mem_append.mp hy with h | h
        · exact hq y (List.mem_cons_of_mem _ h)
        · right
          exact ⟨b, hqb b (List.mem_cons_self _ _), (mem_childrenOf.mp h).2.2.symm⟩
      · intro y hy
        rcases List.mem_append.mp hy with h | h
        · exact hacc y h
        · rw [List.mem_singleton.mp h]; exact hq b (List.mem_cons_self _ _)

/-- A block whose parent identifier is non-empty and matches no block of
the input is dropped by `filterOrphanBlocks`. -/
theorem filterOrphanBlocks_drops_orphans {blocks : List Block} {b : Block}
    (hne : b.parentID ≠ "") (habs : ∀ p ∈ blocks, p.id ≠ b.parentID) :
    b ∉ filterOrphanBlocks blocks := by
  intro hmem
  have := bfsRun_parent_present _ _ []
    (fun x hx => (mem_rootsOf.mp hx).1)
    (fun x hx => Or.inl (mem_rootsOf.mp hx).2)
    (fun x hx => absurd hx (List.not_mem_nil _))
    b hmem
  rcases this with h | ⟨p, hp, hpid⟩
  · exact hne h
  · exact habs p hp hpid

theorem childrenOf_sublist (blocks : List Block) (pid : String) :
    (childrenOf blocks pid).Sublist blocks := by
  unfold childrenOf
  split
  · exact List.nil_sublist _
  · exact List.filter_sublist _

theorem rootsOf_sublist (blocks : List Block) : (rootsOf blocks).Sublist blocks :=
  List.filter_sublist _

theorem id_injOn {blocks : List Block} (h : (blocks.map Block.id).Nodup) :
    ∀ a ∈ blocks, ∀ b ∈ blocks, a.id = b.id → a = b :=
  fun a ha b hb hab => List.inj_on_of_nodup_map h ha hb hab

/-- With pairwise-distinct identifiers no block can sit on two different
levels of the traversal. -/
theorem levelIter_disj {blocks : List Block} (h : (blocks.map Block.id).Nodup) :
    ∀ k j x, k < j →
      x ∈ levelIter (childrenOf blocks) k (rootsOf blocks) →
      x ∈ levelIter (childrenOf blocks) j (rootsOf blocks) → False := by
  intro k
  induction k with
  | zero =>
    intro j x hkj h0 hj
    cases j with
    | zero => omega
    | succ j' =>
      obtain ⟨p, _, hpne, _, hxp⟩ := mem_levelIter_succ.mp hj
      exact hpne (by rw [← hxp]; exact (mem_rootsOf.mp h0).2)
  | succ k' ih =>
    intro j x hkj hk hj
    cases j with
    | zero => omega
    | succ j'' =>
      obtain ⟨p₁, hp₁, _, _, hxp₁⟩ := mem_levelIter_succ.mp hk
      obtain ⟨p₂, hp₂, _, _, hxp₂⟩ := mem_levelIter_succ.mp hj
      have hpe : p₁ = p₂ :=
        id_injOn h p₁ (levelIter_subset _ p₁ hp₁) p₂ (levelIter_subset _ p₂ hp₂)
          (by rw [← hxp₁, ← hxp₂])
      exact ih j'' p₁ (by omega) hp₁ (hpe ▸ hp₂)

/-- With pairwise-distinct identifiers every single level is itself free
of duplicated identifiers. -/
theorem levelIter_nodup {blocks : List Block} (h : (blocks.map Block.id).Nodup) :
    ∀ k, ((levelIter (childrenOf blocks) k (rootsOf blocks)).map Block.id).Nodup := by
  intro k
  induction k with
  | zero => exact h.sublist ((rootsOf_sublist blocks).map Block.id)
  | succ k ih =>
    show (((levelIter (childrenOf blocks) k (rootsOf blocks)).flatMap
      (fun b => childrenOf blocks b.id)).map Block.id).Nodup
    rw [List.map_flatMap, List.nodup_flatMap]
    refine ⟨?_, ?_⟩
    · intro p _
      exact h.sublist ((childrenOf_sublist blocks p.id).map Block.id)
    · have hpw : List.Pairwise (fun a b : Block => a.id ≠ b.id)
          (levelIter (childrenOf blocks) k (rootsOf blocks)) :=
        List.pairwise_map.mp ih
      refine hpw.imp ?_
      intro a b hab y hy₁ hy₂
      obtain ⟨x1, hx1, hid1⟩ := List.mem_map.mp hy₁
      obtain ⟨x2, hx2, hid2⟩ := List.mem_map.mp hy₂
      obtain ⟨_, hx1b, hp1⟩ := mem_childrenOf.mp hx1
      obtain ⟨_, hx2b, hp2⟩ := mem_childrenOf.mp hx2
      have hx12 : x1 = x2 := id_injOn h x1 hx1b x2 hx2b (by rw [hid1, hid2])
      exact hab (by rw [← hp1, ← hp2, hx12])

/-- Every block of the concatenated output lives on some level. -/
theorem bfsLevels_mem {blocks : List Block} :
    ∀ m k x,
      x ∈ bfsLevels (childrenOf blocks) m
            (levelIter (childrenOf blocks) k (rootsOf blocks)) →
      ∃ j, k ≤ j ∧ j < k + m ∧ x ∈ levelIter (childrenOf blocks) j (rootsOf blocks) := by
  intro m
  induction m with
  | zero => intro k x hx; simp [bfsLevels] at hx
  | succ m ih =>
    intro k x hx
    rw [bfsLevels] at hx
    rcases List.mem_append.mp hx with hl | hr
    · exact ⟨k, Nat.le_refl k, by omega, hl⟩
    · obtain ⟨j, hj1, hj2, hj3⟩ := ih (k + 1) x hr
      exact ⟨j, by omega, by omega, hj3⟩

/-- With pairwise-distinct identifiers the whole level concatenation is
free of duplicated identifiers. -/
theorem bfsLevels_nodup {blocks : List Block} (h : (blocks.map Block.id).Nodup) :
    ∀ m k, ((bfsLevels (childrenOf blocks) m
      (levelIter (childrenOf blocks) k (rootsOf blocks))).map Block.id).Nodup := by
  intro m
  induction m with
  | zero => intro k; simp [bfsLevels]
  | succ m ih =>
    intro k
    rw [bfsLevels, List.map_append]
    refine List.Nodup.append (levelIter_nodup h k) (ih (k + 1)) ?_
    intro y hy₁ hy₂
    obtain ⟨x1, hx1, hid1⟩ := List.mem_map.mp hy₁
    obtain ⟨x2, hx2, hid2⟩ := List.mem_map.mp hy₂
    obtain ⟨j, hj1, _, hj3⟩ := bfsLevels_mem m (k + 1) x2 hx2
    have hx12 : x1 = x2 :=
      id_injOn h x1 (levelIter_subset _ x1 hx1) x2 (levelIter_subset _ x2 hj3)
        (by rw [hid1, hid2])
    exact levelIter_disj h k j x1 (by omega) hx1 (hx12 ▸ hj3)

/-- As long as no frontier among the first `m` is empty, the traversal
outputs at least `m` blocks. -/
theorem bfsLevels_length_lower (c : String → List Block) :
    ∀ m q, (∀ k, k < m → levelIter c k q ≠ []) → m ≤ (bfsLevels c m q).length := by
  intro m
  induction m with
  | zero => intro q _; omega
  | succ m ih =>
    intro q hq
    rw [bfsLevels, List.length_append]
    have h0 : q ≠ [] := hq 0 (by omega)
    have h1 : 1 ≤ q.length := by
      cases q
      · exact absurd rfl h0
      · simp
    have h2 : m ≤ (bfsLevels c m (q.flatMap (fun b => c b.id))).length := by
      apply ih
      intro k hk
      have := hq (k + 1) (by omega)
      rw [levelIter_shift] at this
      exact this
    omega

/-- With pairwise-distinct identifiers the traversal never outputs more
blocks than the input holds. -/
theorem bfsLevels_length_le {blocks : List Block} (h : (blocks.map Block.id).Nodup) :
    ∀ m, (bfsLevels (childrenOf blocks) m (rootsOf blocks)).length ≤ blocks.length := by
  intro m
  have hnd : ((bfsLevels (childrenOf blocks) m (rootsOf blocks)).map Block.id).Nodup :=
    bfsLevels_nodup h m 0
  have hsub : (bfsLevels (childrenOf blocks) m (rootsOf blocks)).map Block.id
      ⊆ blocks.map Block.id := by
    intro y hy
    obtain ⟨x, hx, hxy⟩ := List.mem_map.mp hy
    obtain ⟨j, _, _, hj⟩ := bfsLevels_mem m 0 x hx
    exact hxy ▸ List.mem_map_of_mem Block.id (levelIter_subset _ x hj)
  have := (List.Nodup.subperm hnd hsub).length_le
  simpa using this

theorem levelIter_empty_mono (c : String → List Block) :
    ∀ k q, levelIter c k q = [] → ∀ j, k ≤ j → levelIter c j q = [] := by
  intro k q hk j
  induction j with
  | zero =>
    intro h0
    have hk0 : k = 0 := by omega
    subst hk0
    exact hk
  | succ j ih =>
    intro hkj
    rcases Nat.lt_or_ge j k with hlt | hge
    · have hk1 : k = j + 1 := by omega
      subst hk1
      exact hk
    · have hj : levelIter c j q = [] := ih hge
      show (levelIter c j q).flatMap (fun b => c b.id) = []
      rw [hj]; rfl

/-- With pairwise-distinct identifiers the frontier is empty after more
than `blocks.length` rounds. -/
theorem levels_die {blocks : List Block} (h : (blocks.map Block.id).Nodup) :
    ∀ m, blocks.length < m → levelIter (childrenOf blocks) m (rootsOf blocks) = [] := by
  intro m hm
  have hex : ∃ k, k ≤ blocks.length ∧
      levelIter (childrenOf blocks) k (rootsOf blocks) = [] := by
    by_contra hno
    push_neg at hno
    have hne : ∀ k, k < blocks.length + 1 →
        levelIter (childrenOf blocks) k (rootsOf blocks) ≠ [] := by
      intro k hk
      exact hno k (by omega)
    have hlow := bfsLevels_length_lower (childrenOf blocks) (blocks.length + 1)
      (rootsOf blocks) hne
    have hup := bfsLevels_length_le h (blocks.length + 1)
    omega
  obtain ⟨k, hk1, hk2⟩ := hex
  exact levelIter_empty_mono _ k _ hk2 m (by omega)

/-- Once the frontier is empty, taking more rounds adds nothing. -/
theorem bfsLevels_stab (c : String → List Block) :
    ∀ j m q, levelIter c j q = [] → j ≤ m → bfsLevels c m q = bfsLevels c j q := by
  intro j
  induction j with
  | zero =>
    intro m q hq _
    have hq0 : q = [] := hq
    subst hq0
    rw [bfsLevels_nil, bfsLevels_nil]
  | succ j ih =>
    intro m q hq hjm
    cases m with
    | zero => omega
    | succ m' =>
      rw [bfsLevels, bfsLevels]
      congr 1
      apply ih
      · rw [← levelIter_shift]; exact hq
      · omega

/-- Main characterisation: with pairwise-distinct identifiers the Go
queue loop computes the level-by-level breadth-first concatenation (in
particular its fuel provably suffices). -/
theorem filterOrphanBlocks_eq_levels {blocks : List Block}
    (h : (blocks.map Block.id).Nodup) :
    filterOrphanBlocks blocks
      = bfsLevels (childrenOf blocks) (blocks.length + 1) (rootsOf blocks) := by
  apply bfsRun_eq_bfsLevels
  · exact levels_die h (blocks.length + 1) (by omega)
  · have h1 := bfsLevels_length_le h (blocks.length + 1)
    have h2 : blocks.length ≤ blocks.length * blocks.length + 1 := by
      rcases Nat.eq_zero_or_pos blocks.length with h0 | h0
      · simp [h0]
      · exact le_trans (Nat.le_mul_of_pos_left blocks.length h0) (Nat.le_succ _)
    exact le_trans h1 h2

/-- With pairwise-distinct input identifiers the filtered output has
pairwise-distinct identifiers: nothing is duplicated. -/
theorem filterOrphanBlocks_nodup_ids {blocks : List Block}
    (h : (blocks.map Block.id).Nodup) :
    ((filterOrphanBlocks blocks).map Block.id).Nodup := by
  rw [filterOrphanBlocks_eq_levels h]
  exact bfsLevels_nodup h (blocks.length + 1) 0

theorem flatMap_single {L : List Block} {f : Block → List Block} {p : Block}
    (hnd : L.Nodup) (hp : p ∈ L) (hz : ∀ b ∈ L, b ≠ p → f b = []) :
    L.flatMap f = f p := by
  induction L with
  | nil => cases hp
  | cons a L ih =>
    rw [List.flatMap_cons]
    rcases List.mem_cons.mp hp with heq | hpL
    · subst heq
      have hrest : L.flatMap f = [] := by
        apply List.flatMap_eq_nil_iff.mpr
        intro b hb
        exact hz b (List.mem_cons_of_mem _ hb)
          (fun he => (List.nodup_cons.mp hnd).1 (he ▸ hb))
      rw [hrest, List.append_nil]
    · have ha : f a = [] := by
        apply hz a (List.mem_cons_self _ _)
        intro he
        exact (List.nodup_cons.mp hnd).1 (he ▸ hpL)
      rw [ha, List.nil_append]
      exact ih (List.nodup_cons.mp hnd).2 hpL
        (fun b hb hbp => hz b (List.mem_cons_of_mem _ hb) hbp)

/-- On each single level, the blocks whose parent is a reached block `p`
are exactly `p`'s recorded children, and they sit on the level right
after `p`'s. -/
theorem level_filter_children {blocks : List Block} (h : (blocks.map Block.id).Nodup)
    {p : Block} {k : Nat}
    (hp : p ∈ levelIter (childrenOf blocks) k (rootsOf blocks)) (hpne : p.id ≠ "") :
    ∀ j, (levelIter (childrenOf blocks) j (rootsOf blocks)).filter
        (fun z => z.parentID = p.id)
      = if j = k + 1 then childrenOf blocks p.id else [] := by
  intro j
  cases j with
  | zero =>
    rw [if_neg (by omega)]
    apply List.filter_eq_nil_iff.mpr
    intro z hz
    have hroot : z.parentID = "" := (mem_rootsOf.mp hz).2
    simp only [decide_eq_true_eq]
    intro he
    exact hpne (by rw [← he, hroot])
  | succ j' =>
    by_cases hjk : j' = k
    · subst hjk
      rw [if_pos rfl]
      show ((levelIter (childrenOf blocks) j' (rootsOf blocks)).flatMap
        (fun b => childrenOf blocks b.id)).filter (fun z => z.parentID = p.id) = _
      rw [List.filter_flatMap]
      have hnd : (levelIter (childrenOf blocks) j' (rootsOf blocks)).Nodup :=
        (levelIter_nodup h j').of_map
      rw [flatMap_single hnd hp ?side]
      case side =>
        intro b hb hbp
        apply List.filter_eq_nil_iff.mpr
        intro z hz
        simp only [decide_eq_true_eq]
        intro he
        apply hbp
        apply id_injOn h b (levelIter_subset _ b hb) p (levelIter_subset _ p hp)
        rw [← (mem_childrenOf.mp hz).2.2, he]
      apply List.filter_eq_self.mpr
      intro z hz
      simp only [decide_eq_true_eq]
      exact (mem_childrenOf.mp hz).2.2
    · rw [if_neg (by omega)]
      apply List.filter_eq_nil_iff.mpr
      intro z hz
      simp only [decide_eq_true_eq]
      intro he
      obtain ⟨q, hq, hqne, _, hzq⟩ := mem_levelIter_succ.mp hz
      have hqp : q = p :=
        id_injOn h q (levelIter_subset _ q hq) p (levelIter_subset _ p hp)
          (by rw [← hzq, ← he])
      subst hqp
      rcases Nat.lt_or_ge j' k with hlt | hge
      · exact levelIter_disj h j' k q hlt hq hp
      · exact levelIter_disj h k j' q (by omega) hp hq

/-- Filtering the concatenated output for the children of a reached block
`p` recovers exactly `p`'s recorded children (when `p`'s child level falls
inside the window) and nothing otherwise. -/
theorem bfsLevels_filter_children {blocks : List Block} (h : (blocks.map Block.id).Nodup)
    {p : Block} {k : Nat}
    (hp : p ∈ levelIter (childrenOf blocks) k (rootsOf blocks)) (hpne : p.id ≠ "") :
    ∀ m j', (bfsLevels (childrenOf blocks) m
        (levelIter (childrenOf blocks) j' (rootsOf blocks))).filter
          (fun z => z.parentID = p.id)
      = if j' ≤ k + 1 ∧ k + 1 < j' + m then childrenOf blocks p.id else [] := by
  intro m
  induction m with
  | zero =>
    intro j'
    rw [if_neg (by omega)]
    simp [bfsLevels]
  | succ m ih =>
    intro j'
    rw [bfsLevels, List.filter_append]
    have hshift : (levelIter (childrenOf blocks) j' (rootsOf blocks)).flatMap
        (fun b => childrenOf blocks b.id)
      = levelIter (childrenOf blocks) (j' + 1) (rootsOf blocks) := rfl
    rw [hshift, level_filter_children h hp hpne j', ih (j' + 1)]
    by_cases hj : j' = k + 1
    · subst hj
      rw [if_pos rfl, if_neg (by omega), if_pos (by omega), List.append_nil]
    · rw [if_neg hj, List.nil_append]
      by_cases hcond : j' + 1 ≤ k + 1 ∧ k + 1 < j' + 1 + m
      · rw [if_pos hcond, if_pos (by omega)]
      · rw [if_neg hcond, if_neg (by omega)]

/-- The children map computed over the filtered output agrees, at every
reached block, with the children map computed over the raw input. -/
theorem childrenOf_filterOrphan_eq {blocks : List Block}
    (h : (blocks.map Block.id).Nodup) {p : Block} {k : Nat}
    (hp : p ∈ levelIter (childrenOf blocks) k (rootsOf blocks)) :
    childrenOf (filterOrphanBlocks blocks) p.id = childrenOf blocks p.id := by
  by_cases hpe : p.id = ""
  · simp [childrenOf, hpe]
  · have hk : k ≤ blocks.length := by
      by_contra hk'
      rw [levels_die h k (by omega)] at hp
      cases hp
    have lhs : childrenOf (filterOrphanBlocks blocks) p.id
        = (filterOrphanBlocks blocks).filter (fun z => z.parentID = p.id) := by
      unfold childrenOf
      rw [if_neg hpe]
    rw [lhs, filterOrphanBlocks_eq_levels h]
    have hfc := bfsLevels_filter_children h hp hpe (blocks.length + 1) 0
    rw [show levelIter (childrenOf blocks) 0 (rootsOf blocks) = rootsOf blocks from rfl]
      at hfc
    rw [hfc]
    rcases Nat.lt_or_ge k blocks.length with hlt | hge
    · rw [if_pos (by omega)]
    · have hkn : k = blocks.length := by omega
      rw [if_neg (by omega)]
      have hnil : childrenOf blocks p.id = [] := by
        apply List.eq_nil_iff_forall_not_mem.mpr
        intro x hx
        have hx1 : x ∈ levelIter (childrenOf blocks) (k + 1) (rootsOf blocks) :=
          mem_levelIter_succ.mpr
            ⟨p, hp, hpe, (mem_childrenOf.mp hx).2.1, (mem_childrenOf.mp hx).2.2⟩
        rw [levels_die h (k + 1) (by omega)] at hx1
        cases hx1
      rw [hnil]

theorem rootsOf_append (l₁ l₂ : List Block) :
    rootsOf (l₁ ++ l₂) = rootsOf l₁ ++ rootsOf l₂ :=
  List.filter_append _ _

theorem rootsOf_bfsLevels_tail {blocks : List Block} :
    ∀ m, rootsOf (bfsLevels (childrenOf blocks) m
      (levelIter (childrenOf blocks) 1 (rootsOf blocks))) = [] := by
  intro m
  apply List.filter_eq_nil_iff.mpr
  intro z hz
  obtain ⟨j, hj1, _, hj3⟩ := bfsLevels_mem m 1 z hz
  simp only [decide_eq_true_eq]
  intro he
  cases j with
  | zero => omega
  | succ j' =>
    obtain ⟨q, _, hqne, _, hzq⟩ := mem_levelIter_succ.mp hj3
    rw [hzq] at he
    exact hqne he

/-- The roots of the filtered output are exactly the roots of the input,
in order. -/
theorem rootsOf_filterOrphan {blocks : List Block}
    (h : (blocks.map Block.id).Nodup) :
    rootsOf (filterOrphanBlocks blocks) = rootsOf blocks := by
  rw [filterOrphanBlocks_eq_levels h, bfsLevels, rootsOf_append]
  have h1 : rootsOf (rootsOf blocks) = rootsOf blocks := by
    apply List.filter_eq_self.mpr
    intro z hz
    simp only [decide_eq_true_eq]
    exact (mem_rootsOf.mp hz).2
  rw [show (rootsOf blocks).flatMap (fun b => childrenOf blocks b.id)
      = levelIter (childrenOf blocks) 1 (rootsOf blocks) from rfl,
    h1, rootsOf_bfsLevels_tail blocks.length, List.append_nil]

/-- Every traversal frontier computed over the filtered output coincides
with the corresponding frontier computed over the raw input. -/
theorem levelIter_filterOrphan_eq {blocks : List Block}
    (h : (blocks.map Block.id).Nodup) :
    ∀ k, levelIter (childrenOf (filterOrphanBlocks blocks)) k
          (rootsOf (filterOrphanBlocks blocks))
        = levelIter (childrenOf blocks) k (rootsOf blocks) := by
  intro k
  induction k with
  | zero => exact rootsOf_filterOrphan h
  | succ k ih =>
    show (levelIter (childrenOf (filterOrphanBlocks blocks)) k
        (rootsOf (filterOrphanBlocks blocks))).flatMap
          (fun b => childrenOf (filterOrphanBlocks blocks) b.id)
      = (levelIter (childrenOf blocks) k (rootsOf blocks)).flatMap
          (fun b => childrenOf blocks b.id)
    rw [ih]
    exact List.flatMap_congr (fun p hp => childrenOf_filterOrphan_eq h hp)

theorem bfsLevels_filterOrphan_eq {blocks : List Block}
    (h : (blocks.map Block.id).Nodup) :
    ∀ m k, bfsLevels (childrenOf (filterOrphanBlocks blocks)) m
        (levelIter (childrenOf (filterOrphanBlocks blocks)) k
          (rootsOf (filterOrphanBlocks blocks)))
      = bfsLevels (childrenOf blocks) m
          (levelIter (childrenOf blocks) k (rootsOf blocks)) := by
  intro m
  induction m with
  | zero => intro k; rfl
  | succ m ih =>
    intro k
    rw [bfsLevels, bfsLevels]
    rw [show (levelIter (childrenOf (filterOrphanBlocks blocks)) k
          (rootsOf (filterOrphanBlocks blocks))).flatMap
            (fun b => childrenOf (filterOrphanBlocks blocks) b.id)
        = levelIter (childrenOf (filterOrphanBlocks blocks)) (k + 1)
            (rootsOf (filterOrphanBlocks blocks)) from rfl]
    rw [show (levelIter (childrenOf blocks) k (rootsOf blocks)).flatMap
          (fun b => childrenOf blocks b.id)
        = levelIter (childrenOf blocks) (k + 1) (rootsOf blocks) from rfl]
    rw [ih (k + 1), levelIter_filterOrphan_eq h k]

theorem bfsLevels_length_mono (c : String → List Block) :
    ∀ m m' q, m ≤ m' → (bfsLevels c m q).length ≤ (bfsLevels c m' q).length := by
  intro m
  induction m with
  | zero => intro m' q _; simp [bfsLevels]
  | succ m ih =>
    intro m' q hm
    cases m' with
    | zero => omega
    | succ m'' =>
      rw [bfsLevels, bfsLevels, List.length_append, List.length_append]
      have := ih m'' (q.flatMap (fun b => c b.id)) (by omega)
      omega

/-- Idempotence on inputs with pairwise-distinct identifiers: filtering
the filtered output changes nothing. -/
theorem filterOrphan_idem {blocks : List Block}
    (h : (blocks.map Block.id).Nodup) :
    filterOrphanBlocks (filterOrphanBlocks blocks) = filterOrphanBlocks blocks := by
  have hnd : ((filterOrphanBlocks blocks).map Block.id).Nodup :=
    filterOrphanBlocks_nodup_ids h
  have h1 : filterOrphanBlocks (filterOrphanBlocks blocks)
      = bfsLevels (childrenOf (filterOrphanBlocks blocks))
          ((filterOrphanBlocks blocks).length + 1)
          (rootsOf (filterOrphanBlocks blocks)) :=
    filterOrphanBlocks_eq_levels hnd
  have h2 := bfsLevels_filterOrphan_eq h ((filterOrphanBlocks blocks).length + 1) 0
  have hlenout : (bfsLevels (childrenOf blocks) (blocks.length + 1)
      (rootsOf blocks)).length = (filterOrphanBlocks blocks).length := by
    rw [← filterOrphanBlocks_eq_levels h]
  have hlen : (filterOrphanBlocks blocks).length ≤ blocks.length := by
    rw [filterOrphanBlocks_eq_levels h]
    exact bfsLevels_length_le h _
  -- a frontier that is empty early enough to stabilise both windows
  obtain ⟨j0, hj0a, hj0b, hj0⟩ :
      ∃ j0, j0 ≤ (filterOrphanBlocks blocks).length + 1 ∧ j0 ≤ blocks.length + 1 ∧
        levelIter (childrenOf blocks) j0 (rootsOf blocks) = [] := by
    rcases Nat.lt_or_ge (filterOrphanBlocks blocks).length blocks.length with hlt | hge
    · have hex : ∃ k, k ≤ (filterOrphanBlocks blocks).length ∧
          levelIter (childrenOf blocks) k (rootsOf blocks) = [] := by
        by_contra hno
        push_neg at hno
        have hne : ∀ k, k < (filterOrphanBlocks blocks).length + 1 →
            levelIter (childrenOf blocks) k (rootsOf blocks) ≠ [] := by
          intro k hk
          exact hno k (by omega)
        have hlow := bfsLevels_length_lower (childrenOf blocks)
          ((filterOrphanBlocks blocks).length + 1) (rootsOf blocks) hne
        have hmono := bfsLevels_length_mono (childrenOf blocks)
          ((filterOrphanBlocks blocks).length + 1) (blocks.length + 1)
          (rootsOf blocks) (by omega)
        omega
      obtain ⟨k, hk1, hk2⟩ := hex
      exact ⟨k, by omega, by omega, hk2⟩
    · exact ⟨blocks.length + 1, by omega, by omega,
        levels_die h (blocks.length + 1) (by omega)⟩
  calc filterOrphanBlocks (filterOrphanBlocks blocks)
      = bfsLevels (childrenOf blocks) ((filterOrphanBlocks blocks).length + 1)
          (rootsOf blocks) := by rw [h1]; exact h2
    _ = bfsLevels (childrenOf blocks) j0 (rootsOf blocks) :=
        bfsLevels_stab _ j0 _ _ hj0 hj0a
    _ = bfsLevels (childrenOf blocks) (blocks.length + 1) (rootsOf blocks) :=
        (bfsLevels_stab _ j0 _ _ hj0 hj0b).symm
    _ = filterOrphanBlocks blocks := (filterOrphanBlocks_eq_levels h).symm

/-! ### Supporting lemmas about the handler stages -/

theorem string_length_lt_one (s : String) : s.length < 1 ↔ s = "" := by
  constructor
  · intro h
    have h0 : s.data.length = 0 := by
      have h' : s.data.length < 1 := h
      omega
    exact String.ext (List.length_eq_zero.mp h0)
  · intro h; subst h; decide

theorem createValidateBlocks_code : ∀ (l : List Block) (e : ApiError),
    createValidateBlocks l = some e → e.code = 400 := by
  intro l
  induction l with
  | nil => intro e h; cases h
  | cons b rest ih =>
    intro e h
    rw [createValidateBlocks] at h
    split at h
    · cases h; rfl
    · split at h
      · cases h; rfl
      · split at h
        · cases h; rfl
        · exact ih e h

theorem createValidateBlocks_err : ∀ l : List Block,
    (∃ b ∈ l, b.type = "" ∨ b.createAt < 1 ∨ b.updateAt < 1) →
    ∃ e, createValidateBlocks l = some e := by
  intro l
  induction l with
  | nil =>
    rintro ⟨b, hb, _⟩
    cases hb
  | cons b rest ih =>
    rintro ⟨x, hx, hbad⟩
    rw [createValidateBlocks]
    split
    · exact ⟨_, rfl⟩
    · split
      · exact ⟨_, rfl⟩
      · split
        · exact ⟨_, rfl⟩
        · rename_i h1 h2 h3
          apply ih
          rcases List.mem_cons.mp hx with heq | hxr
          · subst heq
            exfalso
            rcases hbad with ht | hc | hu
            · exact h1 (by rw [ht]; decide)
            · exact h2 hc
            · exact h3 hu
          · exact ⟨x, hxr, hbad⟩

theorem createValidateBlocks_ok : ∀ l : List Block,
    (∀ b ∈ l, b.type ≠ "" ∧ 1 ≤ b.createAt ∧ 1 ≤ b.updateAt) →
    createValidateBlocks l = none := by
  intro l
  induction l with
  | nil => intro _; rfl
  | cons b rest ih =>
    intro h
    obtain ⟨ht, hc, hu⟩ := h b (List.mem_cons_self _ _)
    have h1 : ¬ b.type.length < 1 := fun hlt => ht ((string_length_lt_one _).mp hlt)
    have h2 : ¬ b.createAt < 1 := by omega
    have h3 : ¬ b.updateAt < 1 := by omega
    rw [createValidateBlocks, if_neg h1, if_neg h2, if_neg h3]
    exact ih (fun x hx => h x (List.mem_cons_of_mem _ hx))

theorem createScanBoards_start (b0 : Board) (rest : List Board) (st : CreateScan)
    (h : st.teamID = "") :
    createScanBoards st (b0 :: rest)
      = createScanBoards
          ⟨b0.teamID, st.createsPublic || (b0.type == BoardTypeOpen),
            st.createsPrivate || (b0.type == BoardTypePrivate)⟩ rest := by
  simp only [createScanBoards]
  rw [if_pos h]

theorem createScanBoards_err_mismatch : ∀ (l : List Board) (st : CreateScan),
    st.teamID ≠ "" → (∃ b ∈ l, b.teamID ≠ st.teamID) →
    ∃ e, createScanBoards st l = Except.error e ∧ e.code = 400 := by
  intro l
  induction l with
  | nil =>
    rintro st _ ⟨b, hb, _⟩
    cases hb
  | cons b rest ih =>
    rintro st hst ⟨x, hx, hxt⟩
    simp only [createScanBoards]
    rw [if_neg hst]
    by_cases hbt : st.teamID ≠ b.teamID
    · rw [if_pos hbt]
      exact ⟨_, rfl, rfl⟩
    · rw [if_neg hbt]
      push_neg at hbt
      by_cases hid : b.id = ""
      · rw [if_pos hid]
        exact ⟨_, rfl, rfl⟩
      · rw [if_neg hid]
        refine ih ⟨st.teamID, st.createsPublic || (b.type == BoardTypeOpen), st.createsPrivate || (b.type == BoardTypePrivate)⟩ hst ?_
        rcases List.mem_cons.mp hx with heq | hxr
        · subst heq; exact absurd hbt.symm hxt
        · exact ⟨x, hxr, hxt⟩

theorem createScanBoards_err_empty_id : ∀ (l : List Board) (st : CreateScan),
    st.teamID ≠ "" → (∃ b ∈ l, b.id = "") →
    ∃ e, createScanBoards st l = Except.error e ∧ e.code = 400 := by
  intro l
  induction l with
  | nil =>
    rintro st _ ⟨b, hb, _⟩
    cases hb
  | cons b rest ih =>
    rintro st hst ⟨x, hx, hxid⟩
    simp only [createScanBoards]
    rw [if_neg hst]
    by_cases hbt : st.teamID ≠ b.teamID
    · rw [if_pos hbt]
      exact ⟨_, rfl, rfl⟩
    · rw [if_neg hbt]
      by_cases hid : b.id = ""
      · rw [if_pos hid]
        exact ⟨_, rfl, rfl⟩
      · rw [if_neg hid]
        refine ih ⟨st.teamID, st.createsPublic || (b.type == BoardTypeOpen), st.createsPrivate || (b.type == BoardTypePrivate)⟩ hst ?_
        rcases List.mem_cons.mp hx with heq | hxr
        · subst heq; exact absurd hxid hid
        · exact ⟨x, hxr, hxid⟩

theorem createScanBoards_msg : ∀ (l : List Board) (st : CreateScan),
    st.teamID ≠ "" → (∀ b ∈ l, b.id ≠ "") → (∃ b ∈ l, b.teamID ≠ st.teamID) →
    createScanBoards st l
      = Except.error ⟨400, "cannot create boards for multiple teams"⟩ := by
  intro l
  induction l with
  | nil =>
    rintro st _ _ ⟨b, hb, _⟩
    cases hb
  | cons b rest ih =>
    rintro st hst hid ⟨x, hx, hxt⟩
    simp only [createScanBoards]
    rw [if_neg hst]
    by_cases hbt : st.teamID ≠ b.teamID
    · rw [if_pos hbt]
    · rw [if_neg hbt]
      push_neg at hbt
      rw [if_neg (hid b (List.mem_cons_self _ _))]
      refine ih ⟨st.teamID, st.createsPublic || (b.type == BoardTypeOpen), st.createsPrivate || (b.type == BoardTypePrivate)⟩ hst (fun y hy => hid y (List.mem_cons_of_mem _ hy)) ?_
      rcases List.mem_cons.mp hx with heq | hxr
      · subst heq; exact absurd hbt.symm hxt
      · exact ⟨x, hxr, hxt⟩

theorem patchScanBlocks_err (env : Env) (bids : List String) : ∀ l : List String,
    (∃ kid ∈ l, env.getBlockErr kid = false ∧
      (env.getBlock kid = none ∨
        ∃ blk, env.getBlock kid = some blk ∧ blk.boardID ∉ bids)) →
    ∃ e, (patchScanBlocks env bids l).2 = Except.error e := by
  intro l
  induction l with
  | nil =>
    rintro ⟨k, hk, _⟩
    cases hk
  | cons k rest ih =>
    rintro ⟨x, hx, hxerr, hxbad⟩
    by_cases herr : env.getBlockErr k = true
    · exact ⟨⟨500, ""⟩, by simp [patchScanBlocks, herr]⟩
    · cases hblk : env.getBlock k with
      | none => exact ⟨⟨400, ""⟩, by simp [patchScanBlocks, herr, hblk]⟩
      | some blk =>
        by_cases hco : blk.boardID ∈ bids
        · have hnext : ∃ e, (patchScanBlocks env bids rest).2 = Except.error e := by
            apply ih
            rcases List.mem_cons.mp hx with heq | hxr
            · subst heq
              exfalso
              rcases hxbad with hn | ⟨blk', hblk', hco'⟩
              · rw [hblk] at hn; cases hn
              · rw [hblk] at hblk'
                cases hblk'
                exact hco' hco
            · exact ⟨x, hxr, hxerr, hxbad⟩
          obtain ⟨e, he⟩ := hnext
          exact ⟨e, by simp [patchScanBlocks, herr, hblk, hco, he]⟩
        · exact ⟨⟨400, ""⟩, by simp [patchScanBlocks, herr, hblk, hco]⟩

theorem patchScanBlocks_err400 (env : Env) (bids : List String) : ∀ l : List String,
    (∀ kid ∈ l, env.getBlockErr kid = false) →
    (∃ kid ∈ l, env.getBlock kid = none ∨
      ∃ blk, env.getBlock kid = some blk ∧ blk.boardID ∉ bids) →
    (patchScanBlocks env bids l).2 = Except.error ⟨400, ""⟩ := by
  intro l
  induction l with
  | nil =>
    rintro _ ⟨k, hk, _⟩
    cases hk
  | cons k rest ih =>
    rintro hhealthy ⟨x, hx, hxbad⟩
    have herr : ¬ env.getBlockErr k = true := by
      rw [hhealthy k (List.mem_cons_self _ _)]
      decide
    cases hblk : env.getBlock k with
    | none => simp [patchScanBlocks, herr, hblk]
    | some blk =>
      by_cases hco : blk.boardID ∈ bids
      · have hnext : (patchScanBlocks env bids rest).2 = Except.error ⟨400, ""⟩ := by
          apply ih (fun y hy => hhealthy y (List.mem_cons_of_mem _ hy))
          rcases List.mem_cons.mp hx with heq | hxr
          · subst heq
            exfalso
            rcases hxbad with hn | ⟨blk', hblk', hco'⟩
            · rw [hblk] at hn; cases hn
            · rw [hblk] at hblk'
              cases hblk'
              exact hco' hco
          · exact ⟨x, hxr, hxbad⟩
        simp [patchScanBlocks, herr, hblk, hco, hnext]
      · simp [patchScanBlocks, herr, hblk, hco]

theorem patchScanBlocks_ok (env : Env) (bids : List String) : ∀ l : List String,
    (∀ kid ∈ l, env.getBlockErr kid = false ∧
      ∃ blk, env.getBlock kid = some blk ∧ blk.boardID ∈ bids) →
    (patchScanBlocks env bids l).2 = Except.ok () := by
  intro l
  induction l with
  | nil => intro _; rfl
  | cons k rest ih =>
    intro h
    obtain ⟨hkerr, blk, hblk, hco⟩ := h k (List.mem_cons_self _ _)
    have herr : ¬ env.getBlockErr k = true := by rw [hkerr]; decide
    have hnext := ih (fun y hy => h y (List.mem_cons_of_mem _ hy))
    simp [patchScanBlocks, herr, hblk, hco, hnext]

theorem preAudit_ite {c : Prop} [Decidable c] (x : Event)
    (hx : Event.preAudit x = true) :
    ∀ e ∈ (if c then [x] else ([] : List Event)), Event.preAudit e = true := by
  intro e he
  split at he
  · rw [List.mem_singleton.mp he]; exact hx
  · cases he

theorem patchScanBoards_events (env : Env) (u : String) :
    ∀ (l : List (String × BoardPatch)) (t : String) (e : Event),
      e ∈ (patchScanBoards env u t l).1 → e.preAudit = true := by
  intro l
  induction l with
  | nil =>
    intro t e h
    cases h
  | cons p rest ih =>
    intro t e h
    obtain ⟨boardID, patch⟩ := p
    simp only [patchScanBoards] at h
    repeat' split at h
    all_goals
      (repeat' rcases List.mem_append.mp h with h | h) <;>
        first
        | (rw [List.mem_singleton.mp h]; rfl)
        | (refine preAudit_ite _ ?_ e h; rfl)
        | exact ih _ e h
        | exact absurd h (List.not_mem_nil _)

theorem patchScanBlocks_events (env : Env) (bids : List String) :
    ∀ (l : List String) (e : Event),
      e ∈ (patchScanBlocks env bids l).1 → e.preAudit = true := by
  intro l
  induction l with
  | nil =>
    intro e h
    cases h
  | cons k rest ih =>
    intro e h
    simp only [patchScanBlocks] at h
    repeat' split at h
    all_goals
      (repeat' rcases List.mem_append.mp h with h | h) <;>
        first
        | (rw [List.mem_singleton.mp h]; rfl)
        | (refine preAudit_ite _ ?_ e h; rfl)
        | exact ih e h
        | exact absurd h (List.not_mem_nil _)

theorem deleteScanBoards_events (env : Env) (u : String) :
    ∀ (l : List String) (t : String) (e : Event),
      e ∈ (deleteScanBoards env u t l).1 → e.preAudit = true := by
  intro l
  induction l with
  | nil =>
    intro t e h
    cases h
  | cons boardID rest ih =>
    intro t e h
    simp only [deleteScanBoards] at h
    repeat' split at h
    all_goals
      (repeat' rcases List.mem_append.mp h with h | h) <;>
        first
        | (rw [List.mem_singleton.mp h]; rfl)
        | (refine preAudit_ite _ ?_ e h; rfl)
        | exact ih _ e h
        | exact absurd h (List.not_mem_nil _)

theorem handleCreate_validate_error (env : Env) (u : String) (bab : BoardsAndBlocks)
    (e : ApiError) (hv : createValidateBlocks bab.blocks = some e) :
    handleCreateBoardsAndBlocks env u bab
      = ⟨e.code, e.message, [Event.respond e.code]⟩ := by
  simp [handleCreateBoardsAndBlocks, hv]

theorem handleCreate_scan_error (env : Env) (u : String) (bab : BoardsAndBlocks)
    (e : ApiError) (hv : createValidateBlocks bab.blocks = none)
    (hs : createScanBoards ⟨"", false, false⟩ bab.boards = Except.error e) :
    handleCreateBoardsAndBlocks env u bab
      = ⟨e.code, e.message, [Event.respond e.code]⟩ := by
  simp [handleCreateBoardsAndBlocks, hv, hs]

theorem team_mismatch_in_rest (b0 : Board) (rest : List Board)
    (hpair : ∃ b1 ∈ b0 :: rest, ∃ b2 ∈ b0 :: rest, b1.teamID ≠ b2.teamID) :
    ∃ b ∈ rest, b.teamID ≠ b0.teamID := by
  obtain ⟨b1, hb1, b2, hb2, hne⟩ := hpair
  by_cases h1 : b1.teamID = b0.teamID
  · refine ⟨b2, ?_, ?_⟩
    · rcases List.mem_cons.mp hb2 with heq | h
      · subst heq
        exact absurd h1 hne
      · exact h
    · intro hh
      exact hne (by rw [h1, ← hh])
  · refine ⟨b1, ?_, h1⟩
    rcases List.mem_cons.mp hb1 with heq | h
    · subst heq; exact absurd rfl h1
    · exact h

/-! ## The claims -/

/-- C1 (amended: the input's block identifiers must be pairwise
distinct — with a duplicated identifier the output duplicates blocks,
see the counterexample): for every such input, `filterOrphanBlocks`
returns a subset of the input with no duplication and no invented
blocks, ordered breadth-first from the empty-parent roots (stated as
equality with the level-by-level traversal `bfsLevels`); every block
whose parent is absent from the input is dropped; the empty input yields
the empty output (determinism is immediate: the embedding is a pure
function of the input list, and the Go children map is only read by key,
never iterated); and the spec's example `[A(parent ""), B(parent A),
C(parent Z)]` filters to `[A, B]`. -/
theorem c1_filterOrphanBlocks_spec :
    (∀ blocks : List Block, (blocks.map Block.id).Nodup →
      filterOrphanBlocks blocks
          = bfsLevels (childrenOf blocks) (blocks.length + 1) (rootsOf blocks)
        ∧ (∀ x ∈ filterOrphanBlocks blocks, x ∈ blocks)
        ∧ ((filterOrphanBlocks blocks).map Block.id).Nodup
        ∧ (∀ b ∈ blocks, b.parentID ≠ "" →
            (∀ p ∈ blocks, p.id ≠ b.parentID) → b ∉ filterOrphanBlocks blocks))
    ∧ filterOrphanBlocks [] = []
    ∧ filterOrphanBlocks exInput = [exRootA, exChildB] := by
  refine ⟨?_, by decide, by decide⟩
  intro blocks h
  exact ⟨filterOrphanBlocks_eq_levels h, fun x hx => filterOrphanBlocks_subset x hx,
    filterOrphanBlocks_nodup_ids h,
    fun b _ hne habs => filterOrphanBlocks_drops_orphans hne habs⟩

/-- Witness for C1 at the spec's example input. -/
theorem c1_witness :
    (exInput.map Block.id).Nodup ∧
    exOrphanC ∉ filterOrphanBlocks exInput ∧
    ((filterOrphanBlocks exInput).map Block.id).Nodup := by
  refine ⟨by decide, ?_, ?_⟩
  · exact (c1_filterOrphanBlocks_spec.1 exInput (by decide)).2.2.2 exOrphanC
      (by decide) (by decide) (by decide)
  · exact (c1_filterOrphanBlocks_spec.1 exInput (by decide)).2.2.1

/-- C1 counterexample: with a duplicated identifier in the input the
filtered output contains the child block twice although the input holds
it once, so the output is neither duplication-free nor a subset of the
input (the Go loop's dequeue order on this input is `A, A, B, B`). -/
theorem c1_counterexample :
    (filterOrphanBlocks dupInput).count dupChildB = 2 ∧
    dupInput.count dupChildB = 1 := by decide

/-- C9 (amended: restricted to inputs whose block identifiers are
pairwise distinct — the regime the server guarantees, since identifiers
are generated unique): `filterOrphanBlocks` is idempotent. -/
theorem c9_filterOrphanBlocks_idempotent :
    ∀ blocks : List Block, (blocks.map Block.id).Nodup →
      filterOrphanBlocks (filterOrphanBlocks blocks) = filterOrphanBlocks blocks :=
  fun _ h => filterOrphan_idem h

/-- Witness for C9 at the spec's example input. -/
theorem c9_witness :
    filterOrphanBlocks (filterOrphanBlocks exInput) = filterOrphanBlocks exInput :=
  c9_filterOrphanBlocks_idempotent exInput (by decide)

/-- C9 counterexample: on an input carrying the same root twice the
second application duplicates the children again, so applying the filter
twice differs from applying it once (Go terminates on both runs: dequeue
orders `A, A, B, B` and `A, A, B, B, B, B`). -/
theorem c9_counterexample :
    filterOrphanBlocks (filterOrphanBlocks dupInput) ≠ filterOrphanBlocks dupInput := by
  decide

/-- C7: the metadata stamper sets every block's last-modifying actor to
the acting user — or to the empty string when the actor is the
single-user sentinel — and stamps the whole batch with the one shared
update timestamp `now` (the single `utils.GetMillis()` reading taken
once per request, before the loop). -/
theorem c7_stampModificationMetadata_spec :
    ∀ (userID : String) (now : Int) (blocks : List Block),
      (∀ b ∈ stampModificationMetadata userID now blocks,
        b.updateAt = now ∧
        b.modifiedBy = (if userID = SingleUser then "" else userID)) ∧
      (∀ b1 ∈ stampModificationMetadata userID now blocks,
       ∀ b2 ∈ stampModificationMetadata userID now blocks,
        b1.updateAt = b2.updateAt) := by
  intro userID now blocks
  constructor
  · intro b hb
    simp only [stampModificationMetadata, List.mem_map] at hb
    obtain ⟨b0, _, hb0⟩ := hb
    rw [← hb0]
    exact ⟨rfl, rfl⟩
  · intro b1 h1 b2 h2
    simp only [stampModificationMetadata, List.mem_map] at h1 h2
    obtain ⟨a1, _, e1⟩ := h1
    obtain ⟨a2, _, e2⟩ := h2
    rw [← e1, ← e2]

/-- Witness for C7: stamping one block as the single-user sentinel. -/
theorem c7_witness :
    (⟨"A", "b", "", "card", 1, 7, ""⟩ : Block).updateAt = 7 ∧
    (⟨"A", "b", "", "card", 1, 7, ""⟩ : Block).modifiedBy
      = (if "single-user" = SingleUser then "" else "single-user") :=
  (c7_stampModificationMetadata_spec "single-user" 7 [exRootA]).1
    ⟨"A", "b", "", "card", 1, 7, ""⟩ (by decide)

/-- C8: a create bundle containing a block with an empty type tag, or
`createAt < 1`, or `updateAt < 1`, is rejected with HTTP 400 and nothing
is created (no persistence event, not even an audit record); a bundle
whose blocks all have a non-empty type and both timestamps ≥ 1 passes
this structural validation. -/
theorem c8_create_structural_validation :
    ∀ (env : Env) (u : String) (bab : BoardsAndBlocks),
      ((∃ b ∈ bab.blocks, b.type = "" ∨ b.createAt < 1 ∨ b.updateAt < 1) →
        (handleCreateBoardsAndBlocks env u bab).status = 400 ∧
        (∀ ok, Event.persistCreateBoardsAndBlocks ok
          ∉ (handleCreateBoardsAndBlocks env u bab).events) ∧
        Event.auditRecordMade ∉ (handleCreateBoardsAndBlocks env u bab).events) ∧
      ((∀ b ∈ bab.blocks, b.type ≠ "" ∧ 1 ≤ b.createAt ∧ 1 ≤ b.updateAt) →
        createValidateBlocks bab.blocks = none) := by
  intro env u bab
  constructor
  · intro hbad
    obtain ⟨e, he⟩ := createValidateBlocks_err bab.blocks hbad
    have hc := createValidateBlocks_code bab.blocks e he
    rw [handleCreate_validate_error env u bab e he]
    refine ⟨hc, ?_, ?_⟩
    · intro ok hmem
      simp at hmem
    · intro hmem
      simp at hmem
  · exact createValidateBlocks_ok bab.blocks

/-- Witness for C8 at a bundle whose one block has an empty type. -/
theorem c8_witness :
    (handleCreateBoardsAndBlocks envAllOk "u" c4Bab).status = 400 ∧
    Event.auditRecordMade ∉ (handleCreateBoardsAndBlocks envAllOk "u" c4Bab).events ∧
    createValidateBlocks c2wBab.blocks = none :=
  ⟨((c8_create_structural_validation envAllOk "u" c4Bab).1
      ⟨⟨"k1", "b", "", "", 1, 1, ""⟩, by decide, Or.inl (by decide)⟩).1,
   ((c8_create_structural_validation envAllOk "u" c4Bab).1
      ⟨⟨"k1", "b", "", "", 1, 1, ""⟩, by decide, Or.inl (by decide)⟩).2.2,
   (c8_create_structural_validation envAllOk "u" c2wBab).2 (by decide)⟩

/-- C2 (amended: restricted to bundles in which every board carries a
non-empty team identifier — the Go loop adopts the first team identifier
seen and performs no checks at all while the adopted identifier is still
empty, see the counterexample): if two boards carry different team
identifiers the request fails with HTTP 400 before any identifier is
generated or permission check runs, and the message is "cannot create
boards for multiple teams" whenever the blocks pass structural
validation and every board after the first carries a non-empty
placeholder identifier; and every board other than the first must carry
a non-empty placeholder identifier, otherwise the request fails with
HTTP 400 before any identifier is generated or permission check runs. -/
theorem c2_create_team_consistency :
    ∀ (env : Env) (u : String) (bab : BoardsAndBlocks),
      (∀ b ∈ bab.boards, b.teamID ≠ "") →
      ((∃ b1 ∈ bab.boards, ∃ b2 ∈ bab.boards, b1.teamID ≠ b2.teamID) →
        (handleCreateBoardsAndBlocks env u bab).status = 400 ∧
        Event.generateIDs ∉ (handleCreateBoardsAndBlocks env u bab).events ∧
        (∀ u' t p g, Event.permCheckTeam u' t p g
          ∉ (handleCreateBoardsAndBlocks env u bab).events)) ∧
      (createValidateBlocks bab.blocks = none →
        (∀ b ∈ bab.boards.tail, b.id ≠ "") →
        (∃ b1 ∈ bab.boards, ∃ b2 ∈ bab.boards, b1.teamID ≠ b2.teamID) →
        (handleCreateBoardsAndBlocks env u bab).message
          = "cannot create boards for multiple teams") ∧
      ((∃ b ∈ bab.boards.tail, b.id = "") →
        (handleCreateBoardsAndBlocks env u bab).status = 400 ∧
        Event.generateIDs ∉ (handleCreateBoardsAndBlocks env u bab).events ∧
        (∀ u' t p g, Event.permCheckTeam u' t p g
          ∉ (handleCreateBoardsAndBlocks env u bab).events)) := by
  intro env u bab hteam
  refine ⟨?_, ?_, ?_⟩
  · intro hpair
    cases hv : createValidateBlocks bab.blocks with
    | some e =>
      rw [handleCreate_validate_error env u bab e hv]
      refine ⟨createValidateBlocks_code bab.blocks e hv, by simp, ?_⟩
      intro u' t p g hmem
      simp at hmem
    | none =>
      cases hbs : bab.boards with
      | nil =>
        obtain ⟨b1, hb1, _⟩ := hpair
        rw [hbs] at hb1
        cases hb1
      | cons b0 rest =>
        have hmem0 : b0 ∈ bab.boards := by rw [hbs]; exact List.mem_cons_self _ _
        obtain ⟨e, he, hc⟩ :
            ∃ e, createScanBoards ⟨"", false, false⟩ bab.boards = Except.error e ∧
              e.code = 400 := by
          rw [hbs, createScanBoards_start b0 rest _ rfl]
          exact createScanBoards_err_mismatch rest _ (hteam b0 hmem0)
            (team_mismatch_in_rest b0 rest (by rw [hbs] at hpair; exact hpair))
        rw [handleCreate_scan_error env u bab e hv he]
        refine ⟨hc, by simp, ?_⟩
        intro u' t p g hmem
        simp at hmem
  · intro hv hids hpair
    cases hbs : bab.boards with
    | nil =>
      obtain ⟨b1, hb1, _⟩ := hpair
      rw [hbs] at hb1
      cases hb1
    | cons b0 rest =>
      have hmem0 : b0 ∈ bab.boards := by rw [hbs]; exact List.mem_cons_self _ _
      have hmsg : createScanBoards ⟨"", false, false⟩ bab.boards
          = Except.error ⟨400, "cannot create boards for multiple teams"⟩ := by
        rw [hbs, createScanBoards_start b0 rest _ rfl]
        refine createScanBoards_msg rest _ (hteam b0 hmem0) ?_
          (team_mismatch_in_rest b0 rest (by rw [hbs] at hpair; exact hpair))
        intro y hy
        apply hids
        rw [hbs]
        exact hy
      rw [handleCreate_scan_error env u bab _ hv hmsg]
  · intro hid
    cases hv : createValidateBlocks bab.blocks with
    | some e =>
      rw [handleCreate_validate_error env u bab e hv]
      refine ⟨createValidateBlocks_code bab.blocks e hv, by simp, ?_⟩
      intro u' t p g hmem
      simp at hmem
    | none =>
      cases hbs : bab.boards with
      | nil =>
        obtain ⟨b, hb, _⟩ := hid
        rw [hbs] at hb
        cases hb
      | cons b0 rest =>
        have hmem0 : b0 ∈ bab.boards := by rw [hbs]; exact List.mem_cons_self _ _
        obtain ⟨e, he, hc⟩ :
            ∃ e, createScanBoards ⟨"", false, false⟩ bab.boards = Except.error e ∧
              e.code = 400 := by
          rw [hbs, createScanBoards_start b0 rest _ rfl]
          refine createScanBoards_err_empty_id rest _ (hteam b0 hmem0) ?_
          rw [hbs] at hid
          exact hid
        rw [handleCreate_scan_error env u bab e hv he]
        refine ⟨hc, by simp, ?_⟩
        intro u' t p g hmem
        simp at hmem

/-- Witness for C2 at a bundle spanning the two teams T1 and T2. -/
theorem c2_witness :
    (handleCreateBoardsAndBlocks envAllOk "u" c2wBab).status = 400 ∧
    (handleCreateBoardsAndBlocks envAllOk "u" c2wBab).message
      = "cannot create boards for multiple teams" :=
  ⟨((c2_create_team_consistency envAllOk "u" c2wBab (by decide)).1
      ⟨⟨"a", "T1", "O"⟩, by decide, ⟨"b", "T2", "O"⟩, by decide, by decide⟩).1,
   (c2_create_team_consistency envAllOk "u" c2wBab (by decide)).2.1 (by decide)
      (by decide)
      ⟨⟨"a", "T1", "O"⟩, by decide, ⟨"b", "T2", "O"⟩, by decide, by decide⟩⟩

/-- C2 counterexample: a bundle whose first board carries an empty team
identifier and whose second carries team T1 — the two boards' team
identifiers differ, yet the request sails through validation (the scan
keeps adopting while the saved identifier is empty), generates
identifiers and succeeds with 200. -/
theorem c2_counterexample :
    (∃ b1 ∈ c2Bab.boards, ∃ b2 ∈ c2Bab.boards, b1.teamID ≠ b2.teamID) ∧
    (handleCreateBoardsAndBlocks envAllOk "u" c2Bab).status = 200 ∧
    Event.generateIDs ∈ (handleCreateBoardsAndBlocks envAllOk "u" c2Bab).events := by
  exact ⟨⟨⟨"b1", "", "O"⟩, by decide, ⟨"b2", "T1", "O"⟩, by decide, by decide⟩,
    by decide, by decide⟩

theorem mem_skip_pre {pre tail : List Event} (hpre : ∀ e ∈ pre, e.preAudit = true)
    (x : Event) (hx : x.preAudit = false) : x ∈ pre ++ tail ↔ x ∈ tail := by
  constructor
  · intro h
    rcases List.mem_append.mp h with h | h
    · rw [hpre x h] at hx
      cases hx
    · exact h
  · exact fun h => List.mem_append.mpr (Or.inr h)

/-- C3 (amended: the claim holds for the composite create handler —
validation and reference errors, including the identifier-resolution
failure, are all detected before the aggregated permission gates, so a
400 response implies that no permission check was evaluated; for the
patch and delete handlers it is false: their per-board loops consult the
permission service before the store lookup (patch) or before later
boards' lookups (delete), see the counterexample). -/
theorem c3_create_validation_before_permission :
    ∀ (env : Env) (u : String) (bab : BoardsAndBlocks),
      (handleCreateBoardsAndBlocks env u bab).status = 400 →
      (∀ u' b p g, Event.permCheckBoard u' b p g
        ∉ (handleCreateBoardsAndBlocks env u bab).events) ∧
      (∀ u' t p g, Event.permCheckTeam u' t p g
        ∉ (handleCreateBoardsAndBlocks env u bab).events) := by
  intro env u bab h400
  cases hv : createValidateBlocks bab.blocks with
  | some e =>
    rw [handleCreate_validate_error env u bab e hv]
    constructor <;> (intro u' x p g hmem; simp at hmem)
  | none =>
    cases hs : createScanBoards ⟨"", false, false⟩ bab.boards with
    | error e =>
      rw [handleCreate_scan_error env u bab e hv hs]
      constructor <;> (intro u' x p g hmem; simp at hmem)
    | ok scan =>
      cases hg : env.oracle.generateBab bab with
      | none =>
        have hh : handleCreateBoardsAndBlocks env u bab
            = ⟨400, "", [Event.generateIDs, Event.respond 400]⟩ := by
          simp [handleCreateBoardsAndBlocks, hv, hs, hg]
        rw [hh]
        constructor <;> (intro u' x p g hmem; simp at hmem)
      | some bab2 =>
        exfalso
        simp only [handleCreateBoardsAndBlocks, hv, hs, hg] at h400
        split at h400
        · simp at h400
        · split at h400
          · simp at h400
          · split at h400
            · simp at h400
            · simp at h400

/-- Witness for C3 at a create request rejected by block validation. -/
theorem c3_witness :
    Event.permCheckTeam "u" "T1" Perm.createPublicChannel true
      ∉ (handleCreateBoardsAndBlocks envAllOk "u" c4Bab).events :=
  (c3_create_validation_before_permission envAllOk "u" c4Bab (by decide)).2
    "u" "T1" Perm.createPublicChannel true

/-- C3 counterexample: a patch request targeting a board the store does
not know fails with the 400 reference error, yet the permission service
was consulted for that board before the store lookup — the error is not
detected before the permission check. -/
theorem c3_counterexample :
    (handlePatchBoardsAndBlocks envAllOk "u" c3Pbab).status = 400 ∧
    Event.permCheckBoard "u" "missing" Perm.manageBoardProperties true
      ∈ (handlePatchBoardsAndBlocks envAllOk "u" c3Pbab).events := by
  exact ⟨by decide, by decide⟩

theorem createScanBoards_code : ∀ (l : List Board) (st : CreateScan) (e : ApiError),
    createScanBoards st l = Except.error e → e.code = 400 := by
  intro l
  induction l with
  | nil =>
    intro st e h
    cases h
  | cons b rest ih =>
    intro st e h
    simp only [createScanBoards] at h
    repeat' split at h
    all_goals
      first
      | (cases h; rfl)
      | exact ih _ e h

theorem patchScanBoards_code (env : Env) (u : String) :
    ∀ (l : List (String × BoardPatch)) (t : String) (e : ApiError),
      (patchScanBoards env u t l).2 = Except.error e → e.code ≠ 200 := by
  intro l
  induction l with
  | nil =>
    intro t e h
    cases h
  | cons p rest ih =>
    intro t e h
    obtain ⟨boardID, patch⟩ := p
    simp only [patchScanBoards] at h
    repeat' split at h
    all_goals
      first
      | (cases h; decide)
      | exact ih _ e h

theorem patchScanBlocks_code (env : Env) (bids : List String) :
    ∀ (l : List String) (e : ApiError),
      (patchScanBlocks env bids l).2 = Except.error e → e.code ≠ 200 := by
  intro l
  induction l with
  | nil =>
    intro e h
    cases h
  | cons k rest ih =>
    intro e h
    simp only [patchScanBlocks] at h
    repeat' split at h
    all_goals
      first
      | (cases h; decide)
      | exact ih e h

theorem deleteScanBoards_code (env : Env) (u : String) :
    ∀ (l : List String) (t : String) (e : ApiError),
      (deleteScanBoards env u t l).2 = Except.error e → e.code ≠ 200 := by
  intro l
  induction l with
  | nil =>
    intro t e h
    cases h
  | cons boardID rest ih =>
    intro t e h
    simp only [deleteScanBoards] at h
    repeat' split at h
    all_goals
      first
      | (cases h; decide)
      | exact ih _ e h

/-- The audit contract of the composite create handler: a success audit
entry appears exactly on 200 responses, audit entries mirror the
persistence outcome one-to-one, and an audit record exists exactly when
persistence was attempted. -/
theorem create_audit_contract (env : Env) (u : String) (bab : BoardsAndBlocks) :
    (Event.auditLogged true ∈ (handleCreateBoardsAndBlocks env u bab).events
      ↔ (handleCreateBoardsAndBlocks env u bab).status = 200) ∧
    (∀ ok, Event.persistCreateBoardsAndBlocks ok
        ∈ (handleCreateBoardsAndBlocks env u bab).events
      ↔ Event.auditLogged ok ∈ (handleCreateBoardsAndBlocks env u bab).events) ∧
    (Event.auditRecordMade ∈ (handleCreateBoardsAndBlocks env u bab).events
      ↔ ∃ ok, Event.persistCreateBoardsAndBlocks ok
          ∈ (handleCreateBoardsAndBlocks env u bab).events) := by
  cases hv : createValidateBlocks bab.blocks with
  | some e =>
    have hc := createValidateBlocks_code bab.blocks e hv
    rw [handleCreate_validate_error env u bab e hv]
    refine ⟨?_, ?_, ?_⟩ <;> simp [hc]
  | none =>
    cases hs : createScanBoards ⟨"", false, false⟩ bab.boards with
    | error e =>
      have hc := createScanBoards_code bab.boards _ e hs
      rw [handleCreate_scan_error env u bab e hv hs]
      refine ⟨?_, ?_, ?_⟩ <;> simp [hc]
    | ok scan =>
      cases hg : env.oracle.generateBab bab with
      | none =>
        have hh : handleCreateBoardsAndBlocks env u bab
            = ⟨400, "", [Event.generateIDs, Event.respond 400]⟩ := by
          simp [handleCreateBoardsAndBlocks, hv, hs, hg]
        rw [hh]
        refine ⟨?_, ?_, ?_⟩ <;> simp
      | some bab2 =>
        cases hcp : scan.createsPublic <;>
          cases hpo : env.permTeam u scan.teamID Perm.createPublicChannel <;>
          cases hcq : scan.createsPrivate <;>
          cases hqo : env.permTeam u scan.teamID Perm.createPrivateChannel <;>
          cases hper : env.persistCreateOk <;>
          simp [handleCreateBoardsAndBlocks, hv, hs, hg, hcp, hpo, hcq, hqo, hper]

/-- The audit contract of the composite patch handler. -/
theorem patch_audit_contract (env : Env) (u : String) (pbab : PatchBoardsAndBlocks) :
    (Event.auditLogged true ∈ (handlePatchBoardsAndBlocks env u pbab).events
      ↔ (handlePatchBoardsAndBlocks env u pbab).status = 200) ∧
    (∀ ok, Event.persistPatchBoardsAndBlocks ok
        ∈ (handlePatchBoardsAndBlocks env u pbab).events
      ↔ Event.auditLogged ok ∈ (handlePatchBoardsAndBlocks env u pbab).events) ∧
    (Event.auditRecordMade ∈ (handlePatchBoardsAndBlocks env u pbab).events
      ↔ ∃ ok, Event.persistPatchBoardsAndBlocks ok
          ∈ (handlePatchBoardsAndBlocks env u pbab).events) := by
  have hsb : ∀ e ∈ (patchScanBoards env u "" (pbab.boardIDs.zip pbab.boardPatches)).1,
      e.preAudit = true := fun e he => patchScanBoards_events env u _ _ e he
  have hsk : ∀ e ∈ (patchScanBlocks env pbab.boardIDs pbab.blockIDs).1,
      e.preAudit = true := fun e he => patchScanBlocks_events env pbab.boardIDs _ e he
  by_cases hval : env.oracle.pbabValid pbab = true
  case neg =>
    have hR : handlePatchBoardsAndBlocks env u pbab = ⟨400, "", [Event.respond 400]⟩ := by
      simp [handlePatchBoardsAndBlocks, hval]
    rw [hR]
    dsimp only
    refine ⟨?_, ?_, ?_⟩ <;> simp
  case pos =>
    cases hS : (patchScanBoards env u "" (pbab.boardIDs.zip pbab.boardPatches)).2 with
    | error e =>
      have hc := patchScanBoards_code env u _ _ e hS
      have hR : handlePatchBoardsAndBlocks env u pbab
          = ⟨e.code, e.message,
            (patchScanBoards env u "" (pbab.boardIDs.zip pbab.boardPatches)).1
              ++ [Event.respond e.code]⟩ := by
        simp [handlePatchBoardsAndBlocks, hval, hS]
      rw [hR]
      dsimp only
      refine ⟨?_, ?_, ?_⟩
      · rw [mem_skip_pre hsb (Event.auditLogged true) rfl]
        simp [hc]
      · intro ok
        rw [mem_skip_pre hsb (Event.persistPatchBoardsAndBlocks ok) rfl,
          mem_skip_pre hsb (Event.auditLogged ok) rfl]
        simp
      · constructor
        · intro h
          rw [mem_skip_pre hsb Event.auditRecordMade rfl] at h
          simp at h
        · rintro ⟨ok, h⟩
          rw [mem_skip_pre hsb (Event.persistPatchBoardsAndBlocks ok) rfl] at h
          simp at h
    | ok u1 =>
      cases hK : (patchScanBlocks env pbab.boardIDs pbab.blockIDs).2 with
      | error e =>
        have hc := patchScanBlocks_code env pbab.boardIDs _ e hK
        have hR : handlePatchBoardsAndBlocks env u pbab
            = ⟨e.code, e.message,
              (patchScanBoards env u "" (pbab.boardIDs.zip pbab.boardPatches)).1
                ++ ((patchScanBlocks env pbab.boardIDs pbab.blockIDs).1
                  ++ [Event.respond e.code])⟩ := by
          simp [handlePatchBoardsAndBlocks, hval, hS, hK]
        rw [hR]
        dsimp only
        refine ⟨?_, ?_, ?_⟩
        · rw [mem_skip_pre hsb (Event.auditLogged true) rfl,
            mem_skip_pre hsk (Event.auditLogged true) rfl]
          simp [hc]
        · intro ok
          rw [mem_skip_pre hsb (Event.persistPatchBoardsAndBlocks ok) rfl,
            mem_skip_pre hsk (Event.persistPatchBoardsAndBlocks ok) rfl,
            mem_skip_pre hsb (Event.auditLogged ok) rfl,
            mem_skip_pre hsk (Event.auditLogged ok) rfl]
          simp
        · constructor
          · intro h
            rw [mem_skip_pre hsb Event.auditRecordMade rfl,
              mem_skip_pre hsk Event.auditRecordMade rfl] at h
            simp at h
          · rintro ⟨ok, h⟩
            rw [mem_skip_pre hsb (Event.persistPatchBoardsAndBlocks ok) rfl,
              mem_skip_pre hsk (Event.persistPatchBoardsAndBlocks ok) rfl] at h
            simp at h
      | ok u2 =>
        cases hper : env.persistPatchOk with
        | true =>
          have hR : handlePatchBoardsAndBlocks env u pbab
              = ⟨200, "",
                (patchScanBoards env u "" (pbab.boardIDs.zip pbab.boardPatches)).1
                  ++ ((patchScanBlocks env pbab.boardIDs pbab.blockIDs).1
                    ++ [Event.auditRecordMade, Event.persistPatchBoardsAndBlocks true,
                      Event.respond 200, Event.auditLogged true])⟩ := by
            simp [handlePatchBoardsAndBlocks, hval, hS, hK, hper]
          rw [hR]
          dsimp only
          refine ⟨?_, ?_, ?_⟩
          · rw [mem_skip_pre hsb (Event.auditLogged true) rfl,
              mem_skip_pre hsk (Event.auditLogged true) rfl]
            simp
          · intro ok
            rw [mem_skip_pre hsb (Event.persistPatchBoardsAndBlocks ok) rfl,
              mem_skip_pre hsk (Event.persistPatchBoardsAndBlocks ok) rfl,
              mem_skip_pre hsb (Event.auditLogged ok) rfl,
              mem_skip_pre hsk (Event.auditLogged ok) rfl]
            simp
          · constructor
            · intro _
              refine ⟨true, ?_⟩
              rw [mem_skip_pre hsb (Event.persistPatchBoardsAndBlocks true) rfl,
                mem_skip_pre hsk (Event.persistPatchBoardsAndBlocks true) rfl]
              simp
            · intro _
              rw [mem_skip_pre hsb Event.auditRecordMade rfl,
                mem_skip_pre hsk Event.auditRecordMade rfl]
              simp
        | false =>
          have hR : handlePatchBoardsAndBlocks env u pbab
              = ⟨500, "",
                (patchScanBoards env u "" (pbab.boardIDs.zip pbab.boardPatches)).1
                  ++ ((patchScanBlocks env pbab.boardIDs pbab.blockIDs).1
                    ++ [Event.auditRecordMade, Event.persistPatchBoardsAndBlocks false,
                      Event.respond 500, Event.auditLogged false])⟩ := by
            simp [handlePatchBoardsAndBlocks, hval, hS, hK, hper]
          rw [hR]
          dsimp only
          refine ⟨?_, ?_, ?_⟩
          · rw [mem_skip_pre hsb (Event.auditLogged true) rfl,
              mem_skip_pre hsk (Event.auditLogged true) rfl]
            simp
          · intro ok
            rw [mem_skip_pre hsb (Event.persistPatchBoardsAndBlocks ok) rfl,
              mem_skip_pre hsk (Event.persistPatchBoardsAndBlocks ok) rfl,
              mem_skip_pre hsb (Event.auditLogged ok) rfl,
              mem_skip_pre hsk (Event.auditLogged ok) rfl]
            simp
          · constructor
            · intro _
              refine ⟨false, ?_⟩
              rw [mem_skip_pre hsb (Event.persistPatchBoardsAndBlocks false) rfl,
                mem_skip_pre hsk (Event.persistPatchBoardsAndBlocks false) rfl]
              simp
            · intro _
              rw [mem_skip_pre hsb Event.auditRecordMade rfl,
                mem_skip_pre hsk Event.auditRecordMade rfl]
              simp

/-- The audit contract of the composite delete handler. -/
theorem delete_audit_contract (env : Env) (u : String) (dbab : DeleteBoardsAndBlocks) :
    (Event.auditLogged true ∈ (handleDeleteBoardsAndBlocks env u dbab).events
      ↔ (handleDeleteBoardsAndBlocks env u dbab).status = 200) ∧
    (∀ ok, Event.persistDeleteBoardsAndBlocks ok
        ∈ (handleDeleteBoardsAndBlocks env u dbab).events
      ↔ Event.auditLogged ok ∈ (handleDeleteBoardsAndBlocks env u dbab).events) ∧
    (Event.auditRecordMade ∈ (handleDeleteBoardsAndBlocks env u dbab).events
      ↔ ∃ ok, Event.persistDeleteBoardsAndBlocks ok
          ∈ (handleDeleteBoardsAndBlocks env u dbab).events) := by
  have hsb : ∀ e ∈ (deleteScanBoards env u "" dbab.boards).1, e.preAudit = true :=
    fun e he => deleteScanBoards_events env u _ _ e he
  cases hS : (deleteScanBoards env u "" dbab.boards).2 with
  | error e =>
    have hc := deleteScanBoards_code env u _ _ e hS
    have hR : handleDeleteBoardsAndBlocks env u dbab
        = ⟨e.code, e.message,
          (deleteScanBoards env u "" dbab.boards).1 ++ [Event.respond e.code]⟩ := by
      simp [handleDeleteBoardsAndBlocks, hS]
    rw [hR]
    dsimp only
    refine ⟨?_, ?_, ?_⟩
    · rw [mem_skip_pre hsb (Event.auditLogged true) rfl]
      simp [hc]
    · intro ok
      rw [mem_skip_pre hsb (Event.persistDeleteBoardsAndBlocks ok) rfl,
        mem_skip_pre hsb (Event.auditLogged ok) rfl]
      simp
    · constructor
      · intro h
        rw [mem_skip_pre hsb Event.auditRecordMade rfl] at h
        simp at h
      · rintro ⟨ok, h⟩
        rw [mem_skip_pre hsb (Event.persistDeleteBoardsAndBlocks ok) rfl] at h
        simp at h
  | ok u1 =>
    by_cases hval : env.oracle.dbabValid dbab = true
    case neg =>
      have hR : handleDeleteBoardsAndBlocks env u dbab
          = ⟨400, "",
            (deleteScanBoards env u "" dbab.boards).1 ++ [Event.respond 400]⟩ := by
        simp [handleDeleteBoardsAndBlocks, hS, hval]
      rw [hR]
      dsimp only
      refine ⟨?_, ?_, ?_⟩
      · rw [mem_skip_pre hsb (Event.auditLogged true) rfl]
        simp
      · intro ok
        rw [mem_skip_pre hsb (Event.persistDeleteBoardsAndBlocks ok) rfl,
          mem_skip_pre hsb (Event.auditLogged ok) rfl]
        simp
      · constructor
        · intro h
          rw [mem_skip_pre hsb Event.auditRecordMade rfl] at h
          simp at h
        · rintro ⟨ok, h⟩
          rw [mem_skip_pre hsb (Event.persistDeleteBoardsAndBlocks ok) rfl] at h
          simp at h
    case pos =>
      cases hper : env.persistDeleteOk with
      | true =>
        have hR : handleDeleteBoardsAndBlocks env u dbab
            = ⟨200, "",
              (deleteScanBoards env u "" dbab.boards).1
                ++ [Event.auditRecordMade, Event.persistDeleteBoardsAndBlocks true,
                  Event.respond 200, Event.auditLogged true]⟩ := by
          simp [handleDeleteBoardsAndBlocks, hS, hval, hper]
        rw [hR]
        dsimp only
        refine ⟨?_, ?_, ?_⟩
        · rw [mem_skip_pre hsb (Event.auditLogged true) rfl]
          simp
        · intro ok
          rw [mem_skip_pre hsb (Event.persistDeleteBoardsAndBlocks ok) rfl,
            mem_skip_pre hsb (Event.auditLogged ok) rfl]
          simp
        · constructor
          · intro _
            refine ⟨true, ?_⟩
            rw [mem_skip_pre hsb (Event.persistDeleteBoardsAndBlocks true) rfl]
            simp
          · intro _
            rw [mem_skip_pre hsb Event.auditRecordMade rfl]
            simp
      | false =>
        have hR : handleDeleteBoardsAndBlocks env u dbab
            = ⟨500, "",
              (deleteScanBoards env u "" dbab.boards).1
                ++ [Event.auditRecordMade, Event.persistDeleteBoardsAndBlocks false,
                  Event.respond 500, Event.auditLogged false]⟩ := by
          simp [handleDeleteBoardsAndBlocks, hS, hval, hper]
        rw [hR]
        dsimp only
        refine ⟨?_, ?_, ?_⟩
        · rw [mem_skip_pre hsb (Event.auditLogged true) rfl]
          simp
        · intro ok
          rw [mem_skip_pre hsb (Event.persistDeleteBoardsAndBlocks ok) rfl,
            mem_skip_pre hsb (Event.auditLogged ok) rfl]
          simp
        · constructor
          · intro _
            refine ⟨false, ?_⟩
            rw [mem_skip_pre hsb (Event.persistDeleteBoardsAndBlocks false) rfl]
            simp
          · intro _
            rw [mem_skip_pre hsb Event.auditRecordMade rfl]
            simp

/-- C4 (amended: audit records are NOT emitted for requests rejected by
validation or permission — the Go handlers create the audit record only
after those stages, see the counterexample; for requests that reach the
post-gate stage the claim's contract holds): for each composite mutation
handler, a success audit entry appears exactly on a 200 response, the
audit entry's outcome mirrors the persistence outcome one-to-one (so the
record defaults to failure and is flipped to success only after
persistence and response writing complete), and an audit record exists
exactly when persistence was attempted. -/
theorem c4_audit_records :
    ∀ (env : Env) (u : String) (bab : BoardsAndBlocks) (pbab : PatchBoardsAndBlocks)
      (dbab : DeleteBoardsAndBlocks),
      ((Event.auditLogged true ∈ (handleCreateBoardsAndBlocks env u bab).events
          ↔ (handleCreateBoardsAndBlocks env u bab).status = 200) ∧
        (∀ ok, Event.persistCreateBoardsAndBlocks ok
            ∈ (handleCreateBoardsAndBlocks env u bab).events
          ↔ Event.auditLogged ok ∈ (handleCreateBoardsAndBlocks env u bab).events) ∧
        (Event.auditRecordMade ∈ (handleCreateBoardsAndBlocks env u bab).events
          ↔ ∃ ok, Event.persistCreateBoardsAndBlocks ok
              ∈ (handleCreateBoardsAndBlocks env u bab).events)) ∧
      ((Event.auditLogged true ∈ (handlePatchBoardsAndBlocks env u pbab).events
          ↔ (handlePatchBoardsAndBlocks env u pbab).status = 200) ∧
        (∀ ok, Event.persistPatchBoardsAndBlocks ok
            ∈ (handlePatchBoardsAndBlocks env u pbab).events
          ↔ Event.auditLogged ok ∈ (handlePatchBoardsAndBlocks env u pbab).events) ∧
        (Event.auditRecordMade ∈ (handlePatchBoardsAndBlocks env u pbab).events
          ↔ ∃ ok, Event.persistPatchBoardsAndBlocks ok
              ∈ (handlePatchBoardsAndBlocks env u pbab).events)) ∧
      ((Event.auditLogged true ∈ (handleDeleteBoardsAndBlocks env u dbab).events
          ↔ (handleDeleteBoardsAndBlocks env u dbab).status = 200) ∧
        (∀ ok, Event.persistDeleteBoardsAndBlocks ok
            ∈ (handleDeleteBoardsAndBlocks env u dbab).events
          ↔ Event.auditLogged ok ∈ (handleDeleteBoardsAndBlocks env u dbab).events) ∧
        (Event.auditRecordMade ∈ (handleDeleteBoardsAndBlocks env u dbab).events
          ↔ ∃ ok, Event.persistDeleteBoardsAndBlocks ok
              ∈ (handleDeleteBoardsAndBlocks env u dbab).events)) :=
  fun env u bab pbab dbab =>
    ⟨create_audit_contract env u bab, patch_audit_contract env u pbab,
      delete_audit_contract env u dbab⟩

/-- C4 counterexample: a create request rejected by block validation
emits no audit record at all — neither the record nor any logged entry —
refuting "an audit record is emitted regardless of outcome". -/
theorem c4_counterexample :
    (handleCreateBoardsAndBlocks envAllOk "u" c4Bab).status = 400 ∧
    Event.auditRecordMade ∉ (handleCreateBoardsAndBlocks envAllOk "u" c4Bab).events ∧
    Event.auditLogged true ∉ (handleCreateBoardsAndBlocks envAllOk "u" c4Bab).events ∧
    Event.auditLogged false ∉ (handleCreateBoardsAndBlocks envAllOk "u" c4Bab).events := by
  exact ⟨by decide, by decide, by decide, by decide⟩

/-- C5 (amended: only values of `l` that parse as a 32-bit integer other
than 2 or 3 cause the 400 "invalid levels" rejection; a value that fails
to parse — non-numeric, empty/omitted, or out of 32-bit range — silently
defaults to 2 and the request proceeds, see the counterexample). -/
theorem c5_subtree_levels :
    ∀ (env : Env) (u boardID blockID lParam : String),
      (env.readTokenValid = true ∨ env.permBoard u boardID Perm.viewBoard = true) →
      (∀ v, parseInt32 lParam = some v → v ≠ 2 → v ≠ 3 →
        (handleGetSubTree env u boardID blockID lParam).status = 400 ∧
        (handleGetSubTree env u boardID blockID lParam).message = "invalid levels") ∧
      (∀ bs, parseInt32 lParam = none → env.getSubTree boardID blockID 2 = some bs →
        (handleGetSubTree env u boardID blockID lParam).status = 200) ∧
      (∀ v bs, parseInt32 lParam = some v → (v = 2 ∨ v = 3) →
        env.getSubTree boardID blockID v = some bs →
        (handleGetSubTree env u boardID blockID lParam).status = 200) := by
  intro env u boardID blockID lParam hgate
  have hgate' : ¬ ((!env.readTokenValid && !env.permBoard u boardID Perm.viewBoard)
      = true) := by
    rcases hgate with h | h <;> simp [h]
  refine ⟨?_, ?_, ?_⟩
  · intro v hv h2 h3
    constructor <;> simp [handleGetSubTree, hgate', hv, h2, h3]
  · intro bs hv hsub
    simp [handleGetSubTree, hgate', hv, hsub]
  · intro v bs hv hv23 hsub
    rcases hv23 with h | h <;> subst h <;>
      simp [handleGetSubTree, hgate', hv, hsub]

/-- Witness for C5: `l=4` is rejected with "invalid levels"; an omitted
`l` and `l=3` succeed. -/
theorem c5_witness :
    (handleGetSubTree envAllOk "u" "B" "K" "4").status = 400 ∧
    (handleGetSubTree envAllOk "u" "B" "K" "4").message = "invalid levels" ∧
    (handleGetSubTree envAllOk "u" "B" "K" "").status = 200 ∧
    (handleGetSubTree envAllOk "u" "B" "K" "3").status = 200 :=
  ⟨((c5_subtree_levels envAllOk "u" "B" "K" "4" (Or.inl rfl)).1 4 (by decide)
      (by decide) (by decide)).1,
   ((c5_subtree_levels envAllOk "u" "B" "K" "4" (Or.inl rfl)).1 4 (by decide)
      (by decide) (by decide)).2,
   (c5_subtree_levels envAllOk "u" "B" "K" "" (Or.inl rfl)).2.1 [] (by decide) rfl,
   (c5_subtree_levels envAllOk "u" "B" "K" "3" (Or.inl rfl)).2.2 3 [] (by decide)
      (Or.inr rfl) rfl⟩

/-- C5 counterexample: the non-numeric level value `xyz` is a value of
`l` other than 2 or 3, yet the request succeeds with 200 — the parse
error silently defaults the level count to 2 instead of rejecting. -/
theorem c5_counterexample :
    ("xyz" ≠ "2" ∧ "xyz" ≠ "3") ∧
    (handleGetSubTree envAllOk "u" "B" "K" "xyz").status = 200 := by
  exact ⟨⟨by decide, by decide⟩, by decide⟩

/-- C6: each block targeted by a patch bundle must exist and its owning
board must be among the bundle's board identifiers: any violation means
no patch is ever persisted, whatever else happens; when the bundle is
valid, the board stage passes and the store lookups are healthy, the
violation surfaces as HTTP 400; and when every targeted block exists on
a targeted board the block-validation stage passes. -/
theorem c6_patch_block_ownership :
    ∀ (env : Env) (u : String) (pbab : PatchBoardsAndBlocks),
      ((∃ kid ∈ pbab.blockIDs, env.getBlockErr kid = false ∧
          (env.getBlock kid = none ∨
            ∃ blk, env.getBlock kid = some blk ∧ blk.boardID ∉ pbab.boardIDs)) →
        ∀ ok, Event.persistPatchBoardsAndBlocks ok
          ∉ (handlePatchBoardsAndBlocks env u pbab).events) ∧
      (env.oracle.pbabValid pbab = true →
        (patchScanBoards env u "" (pbab.boardIDs.zip pbab.boardPatches)).2
          = Except.ok () →
        (∀ kid ∈ pbab.blockIDs, env.getBlockErr kid = false) →
        (∃ kid ∈ pbab.blockIDs, env.getBlock kid = none ∨
          ∃ blk, env.getBlock kid = some blk ∧ blk.boardID ∉ pbab.boardIDs) →
        (handlePatchBoardsAndBlocks env u pbab).status = 400) ∧
      ((∀ kid ∈ pbab.blockIDs, env.getBlockErr kid = false ∧
          ∃ blk, env.getBlock kid = some blk ∧ blk.boardID ∈ pbab.boardIDs) →
        (patchScanBlocks env pbab.boardIDs pbab.blockIDs).2 = Except.ok ()) := by
  intro env u pbab
  have hsb : ∀ e ∈ (patchScanBoards env u "" (pbab.boardIDs.zip pbab.boardPatches)).1,
      e.preAudit = true := fun e he => patchScanBoards_events env u _ _ e he
  have hsk : ∀ e ∈ (patchScanBlocks env pbab.boardIDs pbab.blockIDs).1,
      e.preAudit = true := fun e he => patchScanBlocks_events env pbab.boardIDs _ e he
  refine ⟨?_, ?_, ?_⟩
  · intro hbad ok hmem
    by_cases hval : env.oracle.pbabValid pbab = true
    case neg =>
      have hR : handlePatchBoardsAndBlocks env u pbab
          = ⟨400, "", [Event.respond 400]⟩ := by
        simp [handlePatchBoardsAndBlocks, hval]
      rw [hR] at hmem
      simp at hmem
    case pos =>
      cases hS : (patchScanBoards env u "" (pbab.boardIDs.zip pbab.boardPatches)).2 with
      | error e =>
        have hR : handlePatchBoardsAndBlocks env u pbab
            = ⟨e.code, e.message,
              (patchScanBoards env u "" (pbab.boardIDs.zip pbab.boardPatches)).1
                ++ [Event.respond e.code]⟩ := by
          simp [handlePatchBoardsAndBlocks, hval, hS]
        rw [hR] at hmem
        dsimp only at hmem
        rw [mem_skip_pre hsb (Event.persistPatchBoardsAndBlocks ok) rfl] at hmem
        simp at hmem
      | ok u1 =>
        obtain ⟨e, hK⟩ := patchScanBlocks_err env pbab.boardIDs pbab.blockIDs hbad
        have hR : handlePatchBoardsAndBlocks env u pbab
            = ⟨e.code, e.message,
              (patchScanBoards env u "" (pbab.boardIDs.zip pbab.boardPatches)).1
                ++ ((patchScanBlocks env pbab.boardIDs pbab.blockIDs).1
                  ++ [Event.respond e.code])⟩ := by
          simp [handlePatchBoardsAndBlocks, hval, hS, hK]
        rw [hR] at hmem
        dsimp only at hmem
        rw [mem_skip_pre hsb (Event.persistPatchBoardsAndBlocks ok) rfl,
          mem_skip_pre hsk (Event.persistPatchBoardsAndBlocks ok) rfl] at hmem
        simp at hmem
  · intro hval hS hhealthy hbad
    have hK := patchScanBlocks_err400 env pbab.boardIDs pbab.blockIDs hhealthy hbad
    have hR : handlePatchBoardsAndBlocks env u pbab
        = ⟨400, "",
          (patchScanBoards env u "" (pbab.boardIDs.zip pbab.boardPatches)).1
            ++ ((patchScanBlocks env pbab.boardIDs pbab.blockIDs).1
              ++ [Event.respond 400])⟩ := by
      simp [handlePatchBoardsAndBlocks, hval, hS, hK]
    rw [hR]
  · exact patchScanBlocks_ok env pbab.boardIDs pbab.blockIDs

/-- Witness for C6: a patch set targeting block `blk1` whose board
`otherBoard` is not among the targeted boards is rejected with 400 and
nothing is persisted. -/
theorem c6_witness :
    (handlePatchBoardsAndBlocks envC6 "u" c6Pbab).status = 400 ∧
    Event.persistPatchBoardsAndBlocks true
      ∉ (handlePatchBoardsAndBlocks envC6 "u" c6Pbab).events ∧
    Event.persistPatchBoardsAndBlocks false
      ∉ (handlePatchBoardsAndBlocks envC6 "u" c6Pbab).events :=
  ⟨(c6_patch_block_ownership envC6 "u" c6Pbab).2.1 rfl rfl
      (by decide) ⟨"blk1", by decide, Or.inr ⟨c6Block, by decide, by decide⟩⟩,
   (c6_patch_block_ownership envC6 "u" c6Pbab).1
      ⟨"blk1", by decide, by decide, Or.inr ⟨c6Block, by decide, by decide⟩⟩ true,
   (c6_patch_block_ownership envC6 "u" c6Pbab).1
      ⟨"blk1", by decide, by decide, Or.inr ⟨c6Block, by decide, by decide⟩⟩ false⟩

theorem generateBlockIDs_boardID (f : Nat → String) (l : List Block) :
    ∀ b ∈ generateBlockIDs f l, ∃ b0 ∈ l, b.boardID = b0.boardID := by
  intro b hb
  simp only [generateBlockIDs, List.mem_map] at hb
  obtain ⟨p, hp, hpe⟩ := hb
  exact ⟨p.2, (List.of_mem_zip hp).2, by rw [← hpe]⟩

theorem stamp_boardID (uid : String) (now : Int) (l : List Block) :
    ∀ b ∈ stampModificationMetadata uid now l, ∃ b0 ∈ l, b.boardID = b0.boardID := by
  intro b hb
  simp only [stampModificationMetadata, List.mem_map] at hb
  obtain ⟨b0, hb0, he⟩ := hb
  exact ⟨b0, hb0, by rw [← he]⟩

theorem import_inserted_boardID (env : Env) (u boardID : String) (blocks : List Block) :
    ∀ b ∈ generateBlockIDs env.freshBlockID
        (stampModificationMetadata u env.now
          (blocks.map (fun b => { b with boardID := boardID }))),
      b.boardID = boardID := by
  intro b hb
  obtain ⟨b1, hb1, he1⟩ := generateBlockIDs_boardID _ _ b hb
  obtain ⟨b2, hb2, he2⟩ := stamp_boardID _ _ _ b1 hb1
  simp only [List.mem_map] at hb2
  obtain ⟨b3, _, he3⟩ := hb2
  rw [he1, he2, ← he3]

/-- C10: every block list handed to the insert step by the import
handler carries the board identifier from the URL path on every block,
regardless of the boardID each submitted block carried in the request
body — the handler rebases all blocks onto the path board before
stamping and identifier generation, and identifier generation (modelled
from the spec) leaves the owning-board field untouched. -/
theorem c10_import_rebases_blocks :
    ∀ (env : Env) (u boardID : String) (blocks : List Block)
      (inserted : List Block) (ok : Bool),
      Event.persistInsertBlocks inserted ok
        ∈ (handleImport env u boardID blocks).events →
      ∀ b ∈ inserted, b.boardID = boardID := by
  intro env u boardID blocks inserted ok hmem
  simp only [handleImport] at hmem
  split at hmem
  · simp at hmem
  · split at hmem
    · simp at hmem
      obtain ⟨hins, _⟩ := hmem
      subst hins
      exact import_inserted_boardID env u boardID blocks
    · simp at hmem
      obtain ⟨hins, _⟩ := hmem
      subst hins
      exact import_inserted_boardID env u boardID blocks

/-- Witness for C10: importing one block submitted under board `other`
onto board `target` inserts it under `target`. -/
theorem c10_witness :
    (⟨"srv0", "target", "", "card", 1, 12345, "u"⟩ : Block).boardID = "target" :=
  c10_import_rebases_blocks envAllOk "u" "target"
    [⟨"k1", "other", "", "card", 1, 1, "u2"⟩]
    [⟨"srv0", "target", "", "card", 1, 12345, "u"⟩] true (by decide)
    ⟨"srv0", "target", "", "card", 1, 12345, "u"⟩ (by decide)

end Focalboard
